import Mathlib

/-!
Verification development for the local-first todo tracker
(`src/public/js/db.js`, `src/public/js/app.js` (SuperBased sync client),
`src/dist/js/sync-notifier.js`).

Conventions of the embedding:
* ISO-8601 timestamp strings are modelled as natural numbers standing for
  `new Date(s).getTime()`; comparing ISO strings lexicographically agrees
  with comparing the numbers, so every timestamp comparison in the source
  is `<`/`>` on `Nat`.
* A JavaScript value that may be `undefined`/`null` is an `Option`.
  A JS truthiness test on a stored timestamp string (always non-empty when
  present) is `Option.isSome`; a truthiness test on a possibly-empty string
  checks `≠ ""` explicitly.
* The Dexie table `db.todos` is a `List` of records; `get` finds the first
  record with the given primary key, `put` replaces the record(s) with that
  key or appends.
-/

namespace DbStore

/-!
Embedding of `src/public/js/db.js` (database `TodoAppV2`, string UUID ids).
The NIP-44 encryption of the payload is modelled as the identity on the
decrypted field record: an encrypted payload is `some data` when
`decryptObject` succeeds and `none` when it throws (corrupt/undecryptable).
-/

/-- Decrypted payload of a todo: the `ENCRYPTED_FIELDS` of db.js.
`scheduled_for`, `created_at`, `updated_at` may be `null`/absent. -/
structure TodoData where
  title : String
  description : String
  priority : String
  state : String
  tags : String
  scheduled_for : Option String
  done : Nat
  deleted : Nat
  created_at : Option Nat
  updated_at : Option Nat
  deriving Repr, DecidableEq

/-- A row of the Dexie `todos` table: plaintext `id`/`owner`, encrypted
`payload` (`none` = the ciphertext fails to decrypt), and the optional
sync watermark `server_updated_at`. -/
structure StoredTodo where
  id : String
  owner : String
  payload : Option TodoData
  server_updated_at : Option Nat
  deriving Repr, DecidableEq

/-- `db.todos` table contents. -/
abbrev DB := List StoredTodo

/-- `db.todos.get(id)`: fetch by primary key. -/
def dbGet (db : DB) (id : String) : Option StoredTodo :=
  db.find? (fun t => t.id = id)

/-- `db.todos.put(rec)`: replace the row with this primary key, or insert. -/
def dbPut (db : DB) (r : StoredTodo) : DB :=
  if db.any (fun t => t.id = r.id) then
    db.map (fun t => if t.id = r.id then r else t)
  else
    db ++ [r]

/-- The placeholder `decryptTodo` returns when decryption fails
(db.js lines 42-54).  Note it carries `deleted = 1` ("Hide failed
decryptions") and no `updated_at` field. -/
def placeholderData : TodoData :=
  { title := "[Encrypted - unable to decrypt]"
  , description := ""
  , priority := "sand"
  , state := "new"
  , tags := ""
  , scheduled_for := none
  , done := 0
  , deleted := 1
  , created_at := none
  , updated_at := none }

/-- Result of `decryptTodo`: `{ id, owner, ...decryptedData }`. -/
structure DecryptedTodo where
  id : String
  owner : String
  data : TodoData
  deriving Repr, DecidableEq

/-- `decryptTodo(encryptedTodo)` for a record with a payload: decrypt, or
return the placeholder on failure.  It is total - decryption failure is
caught, never rethrown. -/
def decryptTodo (t : StoredTodo) : DecryptedTodo :=
  { id := t.id, owner := t.owner, data := t.payload.getD placeholderData }

/-- `getTodoById(id)`: `null` when the row is absent, else `decryptTodo`. -/
def getTodoById (db : DB) (id : String) : Option DecryptedTodo :=
  (dbGet db id).map decryptTodo

/-- `getTodosByOwner(owner, includeDeleted)`: select by owner, decrypt all,
then drop soft-deleted rows (`!t.deleted`) unless `includeDeleted`. -/
def getTodosByOwner (db : DB) (owner : String) (includeDeleted : Bool) :
    List DecryptedTodo :=
  let todos := (db.filter (fun t => t.owner = owner)).map decryptTodo
  if includeDeleted then todos else todos.filter (fun t => t.data.deleted = 0)

/-- An `updates` object passed to `updateTodo`: each field is present
(`some`) or absent.  `scheduled_for`/`created_at` can be present-and-null. -/
structure TodoPatch where
  title : Option String := none
  description : Option String := none
  priority : Option String := none
  state : Option String := none
  tags : Option String := none
  scheduled_for : Option (Option String) := none
  done : Option Nat := none
  deleted : Option Nat := none
  created_at : Option (Option Nat) := none
  deriving Repr, DecidableEq

/-- The done-flag coupling at the top of `updateTodo` (db.js 108-113):
`if (updates.state === 'done') updates.done = 1;
 else if (updates.state && updates.state !== 'done') updates.done = 0;`
An absent or empty-string (falsy) `state` leaves `done` untouched. -/
def applyDoneForcing (u : TodoPatch) : TodoPatch :=
  match u.state with
  | some s =>
      if s = "done" then { u with done := some 1 }
      else if s ≠ "" then { u with done := some 0 }
      else u
  | none => u

/-- `{ ...existing, ...updates, updated_at: now }`. -/
def mergeTodo (existing : TodoData) (u : TodoPatch) (now : Nat) : TodoData :=
  { title := u.title.getD existing.title
  , description := u.description.getD existing.description
  , priority := u.priority.getD existing.priority
  , state := u.state.getD existing.state
  , tags := u.tags.getD existing.tags
  , scheduled_for := u.scheduled_for.getD existing.scheduled_for
  , done := u.done.getD existing.done
  , deleted := u.deleted.getD existing.deleted
  , created_at := u.created_at.getD existing.created_at
  , updated_at := some now }

/-- `updateTodo(id, updates)` (db.js 101-126): get-decrypt-merge-reencrypt,
always setting `updated_at := now`, and copying the existing row's
`server_updated_at` forward when present (the stored watermark string is
non-empty, so JS truthiness is `isSome`). -/
def updateTodo (db : DB) (id : String) (updates : TodoPatch) (now : Nat) :
    Except String DB :=
  match dbGet db id with
  | none => .error "Todo not found"
  | some existingEncrypted =>
      let existing := decryptTodo existingEncrypted
      let u := applyDoneForcing updates
      let updated := mergeTodo existing.data u now
      -- encryptTodo(updated) = { id, owner, payload }, then
      -- `if (existingEncrypted.server_updated_at) encryptedTodo.server_updated_at = ...`
      let newRec : StoredTodo :=
        { id := existing.id
        , owner := existing.owner
        , payload := some updated
        , server_updated_at := existingEncrypted.server_updated_at }
      .ok (dbPut db newRec)

/-- `createTodo(...)` (db.js 65-86): fresh row, `state: 'new'`, `done: 0`,
`deleted: 0`, timestamps `now`; no `server_updated_at` field. -/
def createTodo (db : DB) (id owner title description priority tags : String)
    (scheduled_for : Option String) (now : Nat) : DB :=
  dbPut db
    { id := id
    , owner := owner
    , payload := some
        { title := title
        , description := description
        , priority := priority
        , state := "new"
        , tags := tags
        , scheduled_for := scheduled_for
        , done := 0
        , deleted := 0
        , created_at := some now
        , updated_at := some now }
    , server_updated_at := none }

/-- `transitionTodoState(id, newState)` (db.js 136-144). -/
def transitionTodoState (db : DB) (id : String) (newState : String) (now : Nat) :
    Except String DB :=
  updateTodo db id
    { state := some newState
    , done := some (if newState = "done" then 1 else 0) }
    now

end DbStore

namespace SyncEngine

/-!
Embedding of the SuperBased sync client in `src/public/js/app.js`
(`performSync` and its helpers).  At this layer the encrypted payload is an
opaque string on which the code attempts `JSON.parse`; we model a payload
as its parse outcome (`meta`: `some` of the two timestamp fields read by
the sync code, or `none` when `JSON.parse` throws) together with an opaque
`content` tag distinguishing distinct ciphertexts.
-/

/-- The two fields the sync code reads out of a parsed payload
(`parsed.updated_at`, `parsed.created_at`). -/
structure PMeta where
  updated_at : Option Nat
  created_at : Option Nat
  deriving Repr, DecidableEq

/-- An opaque payload string together with its `JSON.parse` outcome. -/
structure Payload where
  meta : Option PMeta
  content : Nat
  deriving Repr, DecidableEq

/-- `sanitizePayload` (app.js 1369-1377) escapes control characters inside
the payload string; it returns non-string inputs unchanged.  The escaping
rewrites the string representation only, so on this parse-level view of
payloads it is the identity. -/
def sanitizePayload (p : Option Payload) : Option Payload := p

/-- A SyncRecord as fetched from the record service
(`{record_id, encrypted_data, metadata:{local_id, owner, updated_at,
device_id}, updated_at}`); the outer `updated_at` is server-assigned. -/
structure SyncRecord where
  record_id : String
  encrypted_data : Option Payload
  md_local_id : Option String
  md_owner : Option String
  md_updated_at : Option Nat
  md_device_id : Option String
  updated_at : Option Nat
  deriving Repr, DecidableEq

/-- A row of the Dexie `todos` table as the sync client sees it. -/
structure LocalTodo where
  id : String
  owner : String
  payload : Option Payload
  server_updated_at : Option Nat
  deriving Repr, DecidableEq

/-- `db.todos.get(localId)`. -/
def dbGet (db : List LocalTodo) (id : String) : Option LocalTodo :=
  db.find? (fun t => t.id = id)

/-- `db.todos.put(rec)`: replace the row with this primary key, or insert. -/
def dbPut (db : List LocalTodo) (r : LocalTodo) : List LocalTodo :=
  if db.any (fun t => t.id = r.id) then
    db.map (fun t => if t.id = r.id then r else t)
  else
    db ++ [r]

/-- Is `c` matched by the character class `[a-f0-9]` under the `/i` flag? -/
def isHexChar (c : Char) : Bool :=
  c.isDigit || (('a' ≤ c && c ≤ 'f') || ('A' ≤ c && c ≤ 'F'))

/-- `record_id.match(/^todo_([a-f0-9]+)$/i)` on the character list:
a case-insensitive `todo_` prefix followed by one or more hex digits;
returns the captured digits. -/
def parseRecordIdChars : List Char → Option (List Char)
  | c1 :: c2 :: c3 :: c4 :: c5 :: rest =>
      if [c1.toLower, c2.toLower, c3.toLower, c4.toLower, c5.toLower]
           = ['t', 'o', 'd', 'o', '_']
         && rest ≠ [] && rest.all isHexChar
      then some rest else none
  | _ => none

/-- The `localId` extracted from a `record_id`, or `none` when the regex
does not match (app.js 1735-1738). -/
def parseRecordId (s : String) : Option String :=
  (parseRecordIdChars s.data).map (fun cs => String.mk cs)

/-- `x ? new Date(x).getTime() : 0` on an optional timestamp. -/
def tval (o : Option Nat) : Nat := o.getD 0

/-- The pending-local-edits check of the merge pass (app.js 1772-1789):
parse the local payload; on success compare
`parsed.updated_at || parsed.created_at` against the stored
`server_updated_at`; a parse failure counts as pending ("assume we DO have
pending changes (safer)"); a record with no payload, or a parsed payload
with neither timestamp, counts as not pending. -/
def pendingChanges (existing : LocalTodo) : Bool :=
  match existing.payload with
  | none => false
  | some p =>
      match p.meta with
      | none => true
      | some m =>
          match m.updated_at.orElse (fun _ => m.created_at) with
          | none => false
          | some lu => tval existing.server_updated_at < lu

/-- `record.metadata?.owner || ownerNpub` (empty string is falsy). -/
def strOr (o : Option String) (d : String) : String :=
  match o with
  | some s => if s = "" then d else s
  | none => d

/-- State threaded through the merge loop of `performSync`. -/
structure MergeState where
  db : List LocalTodo
  pulled : Nat
  updated : Nat
  deriving Repr, DecidableEq

/-- One iteration of the merge loop (app.js 1733-1807), for one fetched
record: skip non-matching record ids; create missing local rows (*pulled*);
for own-device echoes only advance the watermark when strictly newer; else
take the server payload only when the server is strictly newer than the
stored watermark and there are no pending local edits (*updated*). -/
def mergeStep (deviceId ownerNpub : String) (st : MergeState)
    (record : SyncRecord) : MergeState :=
  match parseRecordId record.record_id with
  | none => st
  | some localId =>
      match dbGet st.db localId with
      | none =>
          { st with
            db := dbPut st.db
              { id := localId
              , owner := strOr record.md_owner ownerNpub
              , payload := sanitizePayload record.encrypted_data
              , server_updated_at := record.updated_at }
            pulled := st.pulled + 1 }
      | some existing =>
          let localServerTime := tval existing.server_updated_at
          let remoteServerTime := tval record.updated_at
          if record.md_device_id = some deviceId then
            if record.updated_at.isSome = true
                ∧ localServerTime < remoteServerTime then
              { st with
                db := dbPut st.db
                  { existing with server_updated_at := record.updated_at } }
            else st
          else
            if localServerTime < remoteServerTime
                ∧ pendingChanges existing = false then
              { st with
                db := dbPut st.db
                  { id := localId
                  , owner := strOr record.md_owner ownerNpub
                  , payload := sanitizePayload record.encrypted_data
                  , server_updated_at := record.updated_at }
                updated := st.updated + 1 }
            else st

/-- The `serverRecords` map built at app.js 1722-1727 (`Map.set`, later
records with the same `record_id` overwrite earlier ones), read back with
`serverRecords.get(recordId)`. -/
def serverMapGet (remote : List SyncRecord) (rid : String) : Option SyncRecord :=
  remote.foldl (fun acc r => if r.record_id = rid then some r else acc) none

/-- `localUpdatedAt` of the push pass (app.js 1819-1825): the parsed
payload's `updated_at || created_at`; when `JSON.parse` throws (including
a missing payload) the current time is used instead. -/
def pushLocalUpdatedAt (now : Nat) (t : LocalTodo) : Option Nat :=
  match t.payload with
  | none => some now
  | some p =>
      match p.meta with
      | none => some now
      | some m => m.updated_at.orElse (fun _ => m.created_at)

/-- The push condition (app.js 1832-1835): record absent from the server
map, or the local timestamp strictly newer than the server-assigned one. -/
def shouldPush (remote : List SyncRecord) (now : Nat) (t : LocalTodo) : Bool :=
  let serverRecord := serverMapGet remote ("todo_" ++ t.id)
  let localTime := tval (pushLocalUpdatedAt now t)
  let serverTime := tval (serverRecord.bind (fun r => r.updated_at))
  serverRecord.isNone || serverTime < localTime

/-- An entry of the `recordsToPush` batch (app.js 1836-1847). -/
structure PushRecord where
  record_id : String
  encrypted_data : Option Payload
  md_local_id : String
  md_owner : String
  md_updated_at : Option Nat
  md_device_id : String
  deriving Repr, DecidableEq

/-- Build one push-batch entry from a local row. -/
def mkPushRecord (deviceId : String) (now : Nat) (t : LocalTodo) : PushRecord :=
  { record_id := "todo_" ++ t.id
  , encrypted_data := t.payload
  , md_local_id := t.id
  , md_owner := t.owner
  , md_updated_at := pushLocalUpdatedAt now t
  , md_device_id := deviceId }

/-- The push pass (app.js 1809-1848): iterate the owner's local rows
(`getEncryptedTodosByOwner`) over the post-merge database and collect the
rows passing `shouldPush`.  The batch is submitted in a single
`client.syncRecords(recordsToPush)` call when non-empty; no local
`server_updated_at` is written here. -/
def pushBatch (remote : List SyncRecord) (deviceId ownerNpub : String)
    (now : Nat) (db : List LocalTodo) : List PushRecord :=
  ((db.filter (fun t => t.owner = ownerNpub)).filter
      (shouldPush remote now)).map (mkPushRecord deviceId now)

/-- The outcome of one completed `performSync` call: the final database,
the counters returned to the caller, and the batch handed to
`client.syncRecords`. -/
structure SyncOutcome where
  db : List LocalTodo
  pushed : Nat
  pulled : Nat
  updated : Nat
  batch : List PushRecord
  deriving Repr, DecidableEq

/-- `performSync(client, ownerNpub)` (app.js 1715-1866) given the list of
SyncRecords the fetch returned (`remote`), the device id, the current time
and the local database: pull-first merge, then the push pass. -/
def performSync (deviceId ownerNpub : String) (now : Nat)
    (remote : List SyncRecord) (db0 : List LocalTodo) : SyncOutcome :=
  let m := remote.foldl (mergeStep deviceId ownerNpub)
    { db := db0, pulled := 0, updated := 0 }
  let batch := pushBatch remote deviceId ownerNpub now m.db
  { db := m.db
  , pushed := batch.length
  , pulled := m.pulled
  , updated := m.updated
  , batch := batch }

/-- How the merge loop transforms the database entry for `localId = i`
when it processes a record whose `record_id` parses to `i`: the
new/echo/take/skip branches of `mergeStep`, expressed on the single
consulted entry. -/
def entryStep (deviceId ownerNpub : String) (e : Option LocalTodo)
    (record : SyncRecord) (i : String) : LocalTodo :=
  match e with
  | none =>
      { id := i
      , owner := strOr record.md_owner ownerNpub
      , payload := sanitizePayload record.encrypted_data
      , server_updated_at := record.updated_at }
  | some existing =>
      if record.md_device_id = some deviceId then
        if record.updated_at.isSome = true
            ∧ tval existing.server_updated_at < tval record.updated_at then
          { existing with server_updated_at := record.updated_at }
        else existing
      else
        if tval existing.server_updated_at < tval record.updated_at
            ∧ pendingChanges existing = false then
          { id := i
          , owner := strOr record.md_owner ownerNpub
          , payload := sanitizePayload record.encrypted_data
          , server_updated_at := record.updated_at }
        else existing

/-- A local row with its sync watermark erased: the part of the row the
merge loop's skip/echo branches never change. -/
def stripWm (t : LocalTodo) : LocalTodo :=
  { t with server_updated_at := none }

/-- Does this row's payload parse to a usable timestamp
(`parsed.updated_at || parsed.created_at` truthy)? -/
def parsesWithTime (t : LocalTodo) : Bool :=
  match t.payload with
  | none => false
  | some p =>
      match p.meta with
      | none => false
      | some m => (m.updated_at.orElse (fun _ => m.created_at)).isSome

/-- A fetched record is canonically named when its `record_id`, if it
parses at all, is literally `todo_` followed by the parsed local id
(the only shape this client ever writes). -/
def canonRid (r : SyncRecord) : Prop :=
  ∀ lid, parseRecordId r.record_id = some lid → r.record_id = "todo_" ++ lid

/-- Decidable form of `canonRid`. -/
def canonRidB (r : SyncRecord) : Bool :=
  match parseRecordId r.record_id with
  | none => true
  | some lid => r.record_id = "todo_" ++ lid

/-- A fetched record is harmless for the merge pass over `db`: if it
parses, the local row exists and the record is either our own echo or
fails the take-the-server-version test.  Processing such a record never
touches `pulled`/`updated` and at most advances a watermark. -/
def SafeRec (deviceId : String) (db : List LocalTodo) (r : SyncRecord) : Prop :=
  ∀ lid, parseRecordId r.record_id = some lid →
    ∃ e, dbGet db lid = some e ∧
      (r.md_device_id = some deviceId ∨
        ¬(tval e.server_updated_at < tval r.updated_at
            ∧ pendingChanges e = false))

end SyncEngine

namespace SyncEngine

/-- Modelled from the spec: the stored shape of one pushed entry after the
Encrypted Remote Record Service records it, stamped with the
service-assigned timestamp `ts` (spec §6: the service "assigns
`serverUpdatedAt` itself"). -/
def pushedRecord (ts : Nat) (pr : PushRecord) : SyncRecord :=
  { record_id := pr.record_id
  , encrypted_data := pr.encrypted_data
  , md_local_id := some pr.md_local_id
  , md_owner := some pr.md_owner
  , md_updated_at := pr.md_updated_at
  , md_device_id := some pr.md_device_id
  , updated_at := some ts }

/-- Modelled from the spec: the Encrypted Remote Record Service
(spec §6) stores records keyed by collection + record id, assigns
`serverUpdatedAt` itself, and acknowledges a push batch.  The service
implementation is not part of this repository; following the spec's words,
recording one pushed entry replaces the stored record with that
`record_id` (or inserts it) and stamps it with the service-assigned
timestamp `ts`, keeping the pushed metadata. -/
def recordPush (ts : Nat) (remote : List SyncEngine.SyncRecord)
    (pr : SyncEngine.PushRecord) : List SyncEngine.SyncRecord :=
  if remote.any (fun x => x.record_id = pr.record_id) then
    remote.map (fun x =>
      if x.record_id = pr.record_id then pushedRecord ts pr else x)
  else
    remote ++ [pushedRecord ts pr]

/-- Modelled from the spec: applying a whole push batch to the service
store, each entry stamped with the service-assigned timestamp `ts`. -/
def applyPush (ts : Nat) (remote : List SyncEngine.SyncRecord)
    (batch : List SyncEngine.PushRecord) : List SyncEngine.SyncRecord :=
  batch.foldl (recordPush ts) remote

end SyncEngine

namespace Notifier

/-!
Embedding of `SyncNotifier.publish` in `src/dist/js/sync-notifier.js`
(lines 58-127).  The notifier state the debounce reads and writes is
`lastPublishTime`; `canSign` abstracts "a secret key or a signing
extension is available" (when neither is, `publish` logs an error and
returns `false` without sending). -/

/-- `DEBOUNCE_MS = 2000`. -/
def DEBOUNCE_MS : Nat := 2000

/-- Mutable state of a `SyncNotifier` relevant to `publish`. -/
structure NotifierState where
  lastPublishTime : Nat
  deriving Repr, DecidableEq

/-- `publish()` at invocation time `now`: return early (no message) inside
the debounce window, else stamp `lastPublishTime = now` and send exactly
one signed notification when a signing method exists.  The returned `Bool`
is `true` exactly when an outbound message was handed to the relay pool.
`now - lastPublishTime < DEBOUNCE_MS` on JS numbers agrees with truncated
`Nat` subtraction: a clock reading below `lastPublishTime` is debounced in
both. -/
def publish (st : NotifierState) (now : Nat) (canSign : Bool) :
    NotifierState × Bool :=
  if now - st.lastPublishTime < DEBOUNCE_MS then (st, false)
  else if canSign then ({ lastPublishTime := now }, true)
  else ({ lastPublishTime := now }, false)

end Notifier

namespace FetchScope

/-!
Embedding of the incremental-fetch plumbing: `getLastSyncTime` /
`setLastSyncTime` (db.js 363-374) store the per-owner watermark in
`localStorage`; `backgroundSync` (app.js 1086-1109, first document)
computes the `since` option; `SuperBasedClient.fetchRecords`
(app.js 1590-1599) turns a truthy `options.since` into the `since` query
parameter.  `performSync`'s own fetch is `client.fetchRecords({})`
(app.js 1719): no `since` option ever. -/

/-- `if (options.since) params.set('since', options.since)`:
the `since` query parameter sent to the service, given `options.since`. -/
def fetchSinceParam (optSince : Option String) : Option String :=
  match optSince with
  | some s => if s = "" then none else some s
  | none => none

/-- `const lastSync = fullSync ? null : getLastSyncTime(owner)` followed by
`fetchRecords({ collection: 'todos', since: lastSync || undefined })`:
the `since` option `backgroundSync` passes, given the stored watermark. -/
def backgroundSyncSinceOption (fullSync : Bool) (stored : Option String) :
    Option String :=
  let lastSync := if fullSync then none else stored
  match lastSync with
  | some s => if s = "" then none else some s
  | none => none

/-- The `since` query parameter of the fetch issued by `backgroundSync`. -/
def backgroundSyncQuerySince (fullSync : Bool) (stored : Option String) :
    Option String :=
  fetchSinceParam (backgroundSyncSinceOption fullSync stored)

/-- The `since` query parameter of the fetch issued by `performSync`
(`client.fetchRecords({})`). -/
def performSyncQuerySince : Option String :=
  fetchSinceParam none

end FetchScope

namespace Inputs

/-! Concrete sample data used by counterexamples and witnesses. -/

/-- A decryptable stored todo in state `new`. -/
def sampleData : DbStore.TodoData :=
  { title := "t", description := "", priority := "sand", state := "new"
  , tags := "", scheduled_for := none, done := 0, deleted := 0
  , created_at := some 1, updated_at := some 1 }

/-- A stored row holding `sampleData`, already synced at time 3. -/
def sampleRow : DbStore.StoredTodo :=
  { id := "a1", owner := "npub1o", payload := some sampleData
  , server_updated_at := some 3 }

/-- A stored row whose payload fails to decrypt. -/
def corruptRow : DbStore.StoredTodo :=
  { id := "b2", owner := "npub1o", payload := none, server_updated_at := none }

/-- A patch that sets `state` to the empty string and `done` to 1:
`updates.state` is falsy, so `updateTodo` skips the done-flag forcing. -/
def emptyStatePatch : DbStore.TodoPatch :=
  { state := some "", done := some 1 }

/-- A sync-layer local row whose payload parses to `updated_at = 10`,
synced at watermark 5 (so it has pending local edits). -/
def pendingTodo : SyncEngine.LocalTodo :=
  { id := "ab", owner := "npub1o"
  , payload := some { meta := some { updated_at := some 10, created_at := some 1 }
                    , content := 7 }
  , server_updated_at := some 5 }

/-- A sync-layer local row whose payload does not parse (`JSON.parse`
throws on it). -/
def unparseableTodo : SyncEngine.LocalTodo :=
  { id := "cd", owner := "npub1o"
  , payload := some { meta := none, content := 9 }
  , server_updated_at := some 5 }

/-- A remote record from another device with a very new server stamp. -/
def foreignRecord : SyncEngine.SyncRecord :=
  { record_id := "todo_ab", encrypted_data := some { meta := some { updated_at := some 90, created_at := none }, content := 42 }
  , md_local_id := some "ab", md_owner := some "npub1o"
  , md_updated_at := some 90, md_device_id := some "otherdev"
  , updated_at := some 100 }

/-- A remote record from another device targeting `unparseableTodo`. -/
def foreignRecordCd : SyncEngine.SyncRecord :=
  { record_id := "todo_cd", encrypted_data := some { meta := some { updated_at := some 90, created_at := none }, content := 43 }
  , md_local_id := some "cd", md_owner := some "npub1o"
  , md_updated_at := some 90, md_device_id := some "otherdev"
  , updated_at := some 100 }

/-- An echo of our own prior push: same device id as ours. -/
def echoRecord : SyncEngine.SyncRecord :=
  { record_id := "todo_ab", encrypted_data := some { meta := some { updated_at := some 10, created_at := none }, content := 7 }
  , md_local_id := some "ab", md_owner := some "npub1o"
  , md_updated_at := some 10, md_device_id := some "mydev"
  , updated_at := some 100 }

end Inputs

/-! ### Basic store lemmas -/

theorem DbStore.dbGet_dbPut_store (db : DbStore.DB) (r : DbStore.StoredTodo) :
    DbStore.dbGet (DbStore.dbPut db r) r.id = some r := by
  unfold DbStore.dbGet DbStore.dbPut
  by_cases h : db.any (fun t => t.id = r.id)
  · simp only [h, if_true]
    induction db with
    | nil => simp at h
    | cons a l ih =>
        by_cases ha : a.id = r.id
        · simp [ha]
        · simp only [List.any_cons, Bool.or_eq_true, decide_eq_true_eq] at h
          rcases h with h | h
          · exact absurd h ha
          · simpa [ha] using ih h
  · simp only [h, if_false]
    induction db with
    | nil => simp
    | cons a l ih =>
        simp only [List.any_cons, Bool.or_eq_true, decide_eq_true_eq,
          not_or] at h
        simpa [h.1] using ih h.2

namespace SyncEngine

theorem dbGet_id {db : List LocalTodo} {i : String} {t : LocalTodo}
    (h : dbGet db i = some t) : t.id = i := by
  simpa using List.find?_some h

theorem dbGet_mem {db : List LocalTodo} {i : String} {t : LocalTodo}
    (h : dbGet db i = some t) : t ∈ db :=
  List.mem_of_find?_eq_some h

theorem find?_replace_ne (db : List LocalTodo) (r : LocalTodo) (i : String)
    (h : i ≠ r.id) :
    (db.map (fun t => if t.id = r.id then r else t)).find?
        (fun t => t.id = i)
      = db.find? (fun t => t.id = i) := by
  induction db with
  | nil => rfl
  | cons a l ih =>
      by_cases ha : a.id = r.id
      · have hr : ¬ r.id = i := fun hh => h hh.symm
        have hai : ¬ a.id = i := fun hh => h (ha.symm.trans hh).symm
        simp only [List.map_cons, ha, if_true]
        rw [List.find?_cons_of_neg _ (by simpa using hr),
          List.find?_cons_of_neg _ (by simpa using hai), ih]
      · simp only [List.map_cons, ha, if_false]
        by_cases hai : a.id = i
        · rw [List.find?_cons_of_pos _ (by simpa using hai),
            List.find?_cons_of_pos _ (by simpa using hai)]
        · rw [List.find?_cons_of_neg _ (by simpa using hai),
            List.find?_cons_of_neg _ (by simpa using hai), ih]

theorem dbGet_dbPut_self (db : List LocalTodo) (r : LocalTodo) :
    dbGet (dbPut db r) r.id = some r := by
  unfold dbGet dbPut
  by_cases h : db.any (fun t => t.id = r.id)
  · simp only [h, if_true]
    induction db with
    | nil => simp at h
    | cons a l ih =>
        by_cases ha : a.id = r.id
        · simp [ha]
        · simp only [List.any_cons, Bool.or_eq_true, decide_eq_true_eq] at h
          rcases h with h | h
          · exact absurd h ha
          · simpa [ha] using ih h
  · simp only [h, if_false]
    induction db with
    | nil => simp
    | cons a l ih =>
        simp only [List.any_cons, Bool.or_eq_true, decide_eq_true_eq,
          not_or] at h
        simpa [h.1] using ih h.2

theorem dbGet_dbPut_ne (db : List LocalTodo) (r : LocalTodo) (i : String)
    (h : i ≠ r.id) : dbGet (dbPut db r) i = dbGet db i := by
  unfold dbGet dbPut
  by_cases hany : (db.any (fun t => t.id = r.id)) = true
  · rw [if_pos hany]
    exact find?_replace_ne db r i h
  · rw [if_neg hany, List.find?_append]
    have hri : ¬ r.id = i := fun hh => h hh.symm
    have hr : ([r].find? (fun t => decide (t.id = i))) = none := by
      simp [hri]
    simp [hr]

theorem dbGet_of_mem_nodup {db : List LocalTodo} {t : LocalTodo}
    (hids : (db.map (fun t => t.id)).Nodup) (ht : t ∈ db) :
    dbGet db t.id = some t := by
  induction db with
  | nil => simp at ht
  | cons a l ih =>
      simp only [List.map_cons, List.nodup_cons] at hids
      rcases List.mem_cons.mp ht with h | h
      · subst h
        simp [dbGet]
      · have hne : ¬ a.id = t.id := by
          intro hh
          have hmem : t.id ∈ l.map (fun t => t.id) :=
            List.mem_map_of_mem _ h
          exact hids.1 (hh ▸ hmem)
        have hrec := ih hids.2 h
        unfold dbGet at hrec ⊢
        rw [List.find?_cons_of_neg _ (by simpa using hne)]
        exact hrec

theorem mergeStep_no_parse (d o : String) (st : MergeState)
    (record : SyncRecord) (h : parseRecordId record.record_id = none) :
    mergeStep d o st record = st := by
  unfold mergeStep
  rw [h]

theorem mergeStep_entry_other (d o : String) (st : MergeState)
    (record : SyncRecord) (j : String)
    (h : parseRecordId record.record_id ≠ some j) :
    dbGet (mergeStep d o st record).db j = dbGet st.db j := by
  unfold mergeStep
  split
  · rfl
  next lid hp =>
    have hjl : j ≠ lid := fun hh => h (hh ▸ hp)
    split
    next hg =>
      exact dbGet_dbPut_ne _ _ _ hjl
    next e hg =>
      have heid : e.id = lid := dbGet_id hg
      dsimp only
      split
      · split
        · exact dbGet_dbPut_ne _ _ _ (fun hh => hjl (hh.trans heid))
        · rfl
      · split
        · exact dbGet_dbPut_ne _ _ _ hjl
        · rfl

theorem mergeStep_entry_eq (d o : String) (st : MergeState)
    (record : SyncRecord) (j : String)
    (h : parseRecordId record.record_id = some j) :
    dbGet (mergeStep d o st record).db j
      = some (entryStep d o (dbGet st.db j) record j) := by
  unfold mergeStep
  split
  next hp => rw [h] at hp; cases hp
  next lid hp =>
    rw [h] at hp
    injection hp with hlj
    subst hlj
    split
    next hg =>
      rw [hg]
      exact dbGet_dbPut_self st.db _
    next e hg =>
      have heid : e.id = j := dbGet_id hg
      rw [hg]
      unfold entryStep
      dsimp only
      split
      · split
        next hup =>
          rw [heid]
          exact dbGet_dbPut_self st.db _
        · exact hg
      · split
        · exact dbGet_dbPut_self st.db _
        · exact hg

theorem entryStep_none (d o : String) (r : SyncRecord) (i : String) :
    entryStep d o none r i =
      { id := i
      , owner := strOr r.md_owner o
      , payload := sanitizePayload r.encrypted_data
      , server_updated_at := r.updated_at } := rfl

theorem entryStep_some (d o : String) (t : LocalTodo) (r : SyncRecord)
    (i : String) :
    entryStep d o (some t) r i =
      if r.md_device_id = some d then
        if r.updated_at.isSome = true
            ∧ tval t.server_updated_at < tval r.updated_at then
          { t with server_updated_at := r.updated_at }
        else t
      else
        if tval t.server_updated_at < tval r.updated_at
            ∧ pendingChanges t = false then
          { id := i
          , owner := strOr r.md_owner o
          , payload := sanitizePayload r.encrypted_data
          , server_updated_at := r.updated_at }
        else t := rfl

theorem pendingChanges_parsed (t : LocalTodo) (p : Payload) (m : PMeta)
    (u : Nat) (hp : t.payload = some p) (hm : p.meta = some m)
    (hu : m.updated_at = some u) :
    pendingChanges t = decide (tval t.server_updated_at < u) := by
  simp [pendingChanges, hp, hm, hu]

theorem pendingChanges_unparsed (t : LocalTodo) (p : Payload)
    (hp : t.payload = some p) (hm : p.meta = none) :
    pendingChanges t = true := by
  simp [pendingChanges, hp, hm]

theorem mergeFold_entry_other (d o : String) (j : String) :
    ∀ (l : List SyncRecord) (st : MergeState),
      (∀ r ∈ l, parseRecordId r.record_id ≠ some j) →
      dbGet (l.foldl (mergeStep d o) st).db j = dbGet st.db j := by
  intro l
  induction l with
  | nil => intro st _; rfl
  | cons a tl ih =>
      intro st h
      rw [List.foldl_cons, ih _ (fun r hr => h r (List.mem_cons_of_mem _ hr)),
        mergeStep_entry_other d o st a j (h a (List.mem_cons_self a tl))]

theorem mergeFold_entry_single (d o : String) (j : String) (r : SyncRecord)
    (hp : parseRecordId r.record_id = some j) :
    ∀ (l : List SyncRecord) (st : MergeState), r ∈ l →
      (l.filter (fun x => parseRecordId x.record_id = some j)).length ≤ 1 →
      dbGet (l.foldl (mergeStep d o) st).db j
        = some (entryStep d o (dbGet st.db j) r j) := by
  intro l
  induction l with
  | nil => intro st hr; simp at hr
  | cons a tl ih =>
      intro st hr hcount
      by_cases hpa : parseRecordId a.record_id = some j
      · have hfil : (tl.filter
            (fun x => parseRecordId x.record_id = some j)) = [] := by
          rw [List.filter_cons_of_pos (by simpa using hpa)] at hcount
          simp only [List.length_cons] at hcount
          exact List.length_eq_zero.mp (by omega)
        have hra : r = a := by
          rcases List.mem_cons.mp hr with h | h
          · exact h
          · exfalso
            have : r ∈ tl.filter
                (fun x => parseRecordId x.record_id = some j) :=
              List.mem_filter.mpr ⟨h, by simpa using hp⟩
            rw [hfil] at this
            simp at this
        subst hra
        rw [List.foldl_cons,
          mergeFold_entry_other d o j tl _
            (fun x hx hparse => by
              have : x ∈ tl.filter
                  (fun y => parseRecordId y.record_id = some j) :=
                List.mem_filter.mpr ⟨hx, by simpa using hparse⟩
              rw [hfil] at this
              simp at this),
          mergeStep_entry_eq d o st r j hp]
      · have hrtl : r ∈ tl := by
          rcases List.mem_cons.mp hr with h | h
          · exact absurd (h ▸ hp) hpa
          · exact h
        have hcount' : (tl.filter
            (fun x => parseRecordId x.record_id = some j)).length ≤ 1 := by
          rwa [List.filter_cons_of_neg (by simpa using hpa)] at hcount
        rw [List.foldl_cons, ih _ hrtl hcount',
          mergeStep_entry_other d o st a j hpa]

theorem parse_todo_append (x lid : String)
    (h : parseRecordId ("todo_" ++ x) = some lid) : lid = x := by
  unfold parseRecordId at h
  have hdata : ("todo_" ++ x).data
      = 't' :: 'o' :: 'd' :: 'o' :: '_' :: x.data := by
    rw [String.data_append]
    rfl
  rw [hdata] at h
  simp only [parseRecordIdChars] at h
  split at h
  · have hx : some (String.mk x.data) = some lid := h
    cases hx
    rfl
  · exact Option.noConfusion h

theorem todo_append_inj (a b : String) (h : "todo_" ++ a = "todo_" ++ b) :
    a = b := by
  have hd := congrArg String.data h
  rw [String.data_append, String.data_append] at hd
  have hdd := List.append_cancel_left hd
  cases a
  cases b
  exact congrArg String.mk hdd

theorem dbPut_map_id_of_mem (db : List LocalTodo) (r : LocalTodo)
    (h : (db.any (fun t => t.id = r.id)) = true) :
    (dbPut db r).map (fun t => t.id) = db.map (fun t => t.id) := by
  unfold dbPut
  rw [if_pos h, List.map_map]
  refine List.map_congr_left ?_
  intro t ht
  by_cases hh : t.id = r.id
  · simp [Function.comp, hh]
  · simp [Function.comp, hh]

theorem dbPut_nodup_ids (db : List LocalTodo) (r : LocalTodo)
    (h : (db.map (fun t => t.id)).Nodup) :
    ((dbPut db r).map (fun t => t.id)).Nodup := by
  by_cases hany : (db.any (fun t => t.id = r.id)) = true
  · rw [dbPut_map_id_of_mem db r hany]
    exact h
  · unfold dbPut
    rw [if_neg hany, List.map_append]
    simp only [List.map_cons, List.map_nil]
    rw [List.nodup_append]
    refine ⟨h, by simp, ?_⟩
    intro a ha hb
    simp only [List.mem_singleton] at hb
    subst hb
    rw [List.mem_map] at ha
    obtain ⟨t, ht, hid⟩ := ha
    exact hany (List.any_eq_true.mpr ⟨t, ht, by simp [hid]⟩)

theorem mergeStep_nodup_ids (d o : String) (st : MergeState)
    (record : SyncRecord) (h : (st.db.map (fun t => t.id)).Nodup) :
    ((mergeStep d o st record).db.map (fun t => t.id)).Nodup := by
  unfold mergeStep
  split
  · exact h
  next lid hp =>
    split
    · exact dbPut_nodup_ids _ _ h
    next e hg =>
      dsimp only
      split
      · split
        · exact dbPut_nodup_ids _ _ h
        · exact h
      · split
        · exact dbPut_nodup_ids _ _ h
        · exact h

theorem mergeFold_nodup_ids (d o : String) :
    ∀ (l : List SyncRecord) (st : MergeState),
      (st.db.map (fun t => t.id)).Nodup →
      ((l.foldl (mergeStep d o) st).db.map (fun t => t.id)).Nodup := by
  intro l
  induction l with
  | nil => intro st h; exact h
  | cons a tl ih =>
      intro st h
      exact ih _ (mergeStep_nodup_ids d o st a h)

theorem stripWm_fields (t t' : LocalTodo) (h : stripWm t = stripWm t') :
    t.id = t'.id ∧ t.owner = t'.owner ∧ t.payload = t'.payload := by
  refine ⟨?_, ?_, ?_⟩
  · exact (congrArg LocalTodo.id h : (stripWm t).id = (stripWm t').id)
  · exact (congrArg LocalTodo.owner h :
      (stripWm t).owner = (stripWm t').owner)
  · exact (congrArg LocalTodo.payload h :
      (stripWm t).payload = (stripWm t').payload)

theorem dbPut_wm_map_stripWm (db : List LocalTodo) (e : LocalTodo)
    (v : Option Nat) (hids : (db.map (fun t => t.id)).Nodup) (he : e ∈ db) :
    (dbPut db { e with server_updated_at := v }).map stripWm
      = db.map stripWm := by
  have hany : (db.any (fun t =>
      t.id = ({ e with server_updated_at := v } : LocalTodo).id)) = true :=
    List.any_eq_true.mpr ⟨e, he, by simp⟩
  unfold dbPut
  rw [if_pos hany, List.map_map]
  refine List.map_congr_left ?_
  intro t ht
  simp only [Function.comp_apply]
  by_cases hh : t.id = ({ e with server_updated_at := v } : LocalTodo).id
  · have hte : t = e :=
      List.inj_on_of_nodup_map hids ht he (by simpa using hh)
    subst hte
    rw [if_pos hh]
    rfl
  · rw [if_neg hh]

theorem count_le_one_of_filterMap_nodup (j : String) :
    ∀ (l : List SyncRecord),
      (l.filterMap (fun r => parseRecordId r.record_id)).Nodup →
      (l.filter
        (fun x => parseRecordId x.record_id = some j)).length ≤ 1 := by
  intro l
  induction l with
  | nil => intro _; simp
  | cons a tl ih =>
      intro h
      cases hpa : parseRecordId a.record_id with
      | none =>
          rw [@List.filterMap_cons_none _ _ (fun r => parseRecordId r.record_id) a tl hpa] at h
          rw [List.filter_cons_of_neg (by simp [hpa])]
          exact ih h
      | some ja =>
          rw [@List.filterMap_cons_some _ _ (fun r => parseRecordId r.record_id) a tl ja hpa] at h
          rw [List.nodup_cons] at h
          by_cases hj : ja = j
          · subst hj
            rw [List.filter_cons_of_pos (by simp [hpa])]
            have hnil : (tl.filter
                (fun x => parseRecordId x.record_id = some ja)) = [] := by
              rw [List.filter_eq_nil_iff]
              intro x hx hpx
              simp only [decide_eq_true_eq] at hpx
              exact h.1 (List.mem_filterMap.mpr ⟨x, hx, hpx⟩)
            rw [hnil]
            simp
          · rw [List.filter_cons_of_neg (by simp [hpa, hj])]
            exact ih h.2

theorem entryStep_safe (d o : String) (e : Option LocalTodo)
    (r : SyncRecord) (i : String) :
    r.md_device_id = some d ∨
      ¬(tval (entryStep d o e r i).server_updated_at < tval r.updated_at
          ∧ pendingChanges (entryStep d o e r i) = false) := by
  cases e with
  | none =>
      right
      rw [entryStep_none]
      simp
  | some ex =>
      by_cases hdev : r.md_device_id = some d
      · exact Or.inl hdev
      · right
        rw [entryStep_some, if_neg hdev]
        by_cases hc : tval ex.server_updated_at < tval r.updated_at
            ∧ pendingChanges ex = false
        · rw [if_pos hc]
          simp
        · rw [if_neg hc]
          exact hc

theorem mergeStep_safe (d o : String) (st : MergeState) (record : SyncRecord)
    (hids : (st.db.map (fun t => t.id)).Nodup)
    (hsafe : SafeRec d st.db record) :
    (mergeStep d o st record).pulled = st.pulled ∧
    (mergeStep d o st record).updated = st.updated ∧
    (mergeStep d o st record).db.map stripWm = st.db.map stripWm := by
  unfold mergeStep
  split
  · exact ⟨rfl, rfl, rfl⟩
  next lid hp =>
    obtain ⟨e, hget, hd⟩ := hsafe lid hp
    split
    next hg => exact Option.noConfusion (hget.symm.trans hg)
    next e' hg =>
      have hee : e' = e := by
        have := hget.symm.trans hg
        exact (Option.some.injEq _ _ ▸ this).symm
      subst hee
      dsimp only
      split
      next hdev =>
        split
        next hup =>
          exact ⟨rfl, rfl,
            dbPut_wm_map_stripWm st.db e' record.updated_at hids
              (dbGet_mem hg)⟩
        · exact ⟨rfl, rfl, rfl⟩
      next hdev =>
        have hnc : ¬(tval e'.server_updated_at < tval record.updated_at
            ∧ pendingChanges e' = false) := by
          rcases hd with hd | hd
          · exact absurd hd hdev
          · exact hd
        rw [if_neg hnc]
        exact ⟨rfl, rfl, rfl⟩

theorem mergeFold_safe (d o : String) :
    ∀ (l : List SyncRecord) (st : MergeState),
      (l.filterMap (fun r => parseRecordId r.record_id)).Nodup →
      (st.db.map (fun t => t.id)).Nodup →
      (∀ r ∈ l, SafeRec d st.db r) →
      ((l.foldl (mergeStep d o) st).pulled = st.pulled ∧
       (l.foldl (mergeStep d o) st).updated = st.updated ∧
       (l.foldl (mergeStep d o) st).db.map stripWm = st.db.map stripWm) := by
  intro l
  induction l with
  | nil => intro st _ _ _; exact ⟨rfl, rfl, rfl⟩
  | cons a tl ih =>
      intro st hnd hids hsafe
      have hstep := mergeStep_safe d o st a hids
        (hsafe a (List.mem_cons_self a tl))
      have hids' : ((mergeStep d o st a).db.map (fun t => t.id)).Nodup :=
        mergeStep_nodup_ids d o st a hids
      have hnd' : (tl.filterMap
          (fun r => parseRecordId r.record_id)).Nodup := by
        cases hpa : parseRecordId a.record_id with
        | none => rwa [@List.filterMap_cons_none _ _ (fun r => parseRecordId r.record_id) a tl hpa] at hnd
        | some ja =>
            rw [@List.filterMap_cons_some _ _ (fun r => parseRecordId r.record_id) a tl ja hpa, List.nodup_cons] at hnd
            exact hnd.2
      have hsafe' : ∀ r ∈ tl, SafeRec d (mergeStep d o st a).db r := by
        intro x hx lid hpx
        obtain ⟨e, hget, hd⟩ := hsafe x (List.mem_cons_of_mem _ hx) lid hpx
        have hne : parseRecordId a.record_id ≠ some lid := by
          intro hpa
          rw [@List.filterMap_cons_some _ _ (fun r => parseRecordId r.record_id) a tl lid hpa, List.nodup_cons] at hnd
          exact hnd.1 (List.mem_filterMap.mpr ⟨x, hx, hpx⟩)
        refine ⟨e, ?_, hd⟩
        rw [mergeStep_entry_other d o st a lid hne]
        exact hget
      obtain ⟨h1, h2, h3⟩ := ih (mergeStep d o st a) hnd' hids' hsafe'
      rw [List.foldl_cons]
      exact ⟨h1.trans hstep.1, h2.trans hstep.2.1, h3.trans hstep.2.2⟩

theorem foldl_last_match (rid : String) :
    ∀ (l : List SyncRecord) (acc : Option SyncRecord),
      l.foldl (fun a r => if r.record_id = rid then some r else a) acc
        = (l.reverse.find? (fun r => r.record_id = rid)).or acc := by
  intro l
  induction l with
  | nil => intro acc; simp
  | cons a tl ih =>
      intro acc
      rw [List.foldl_cons, ih, List.reverse_cons, List.find?_append,
        Option.or_assoc]
      congr 1
      by_cases ha : a.record_id = rid
      · simp [ha]
      · simp [ha]

theorem serverMapGet_eq (l : List SyncRecord) (rid : String) :
    serverMapGet l rid
      = l.reverse.find? (fun r => r.record_id = rid) := by
  unfold serverMapGet
  rw [foldl_last_match]
  exact Option.or_none

theorem serverMapGet_recordPush_self (ts : Nat)
    (remote : List SyncRecord) (pr : PushRecord) :
    serverMapGet (recordPush ts remote pr) pr.record_id
      = some (pushedRecord ts pr) := by
  unfold recordPush
  by_cases hany : (remote.any (fun x => x.record_id = pr.record_id)) = true
  · rw [if_pos hany, serverMapGet_eq, ← List.map_reverse, List.find?_map]
    have hfn : ((fun r : SyncRecord => decide (r.record_id = pr.record_id))
          ∘ (fun x => if x.record_id = pr.record_id
              then pushedRecord ts pr else x))
        = fun x : SyncRecord => decide (x.record_id = pr.record_id) := by
      funext x
      by_cases hx : x.record_id = pr.record_id
      · simp [hx, pushedRecord]
      · simp [hx]
    rw [hfn]
    obtain ⟨x, hx, hpx⟩ := List.any_eq_true.mp hany
    have hsome : (remote.reverse.find?
        (fun r => decide (r.record_id = pr.record_id))).isSome := by
      rw [List.find?_isSome]
      exact ⟨x, List.mem_reverse.mpr hx, hpx⟩
    obtain ⟨x0, hx0⟩ := Option.isSome_iff_exists.mp hsome
    rw [hx0]
    have hpx0 : x0.record_id = pr.record_id := by
      simpa using List.find?_some hx0
    simp [hpx0]
  · rw [if_neg hany, serverMapGet_eq, List.reverse_append]
    simp [pushedRecord]

theorem serverMapGet_recordPush_ne (ts : Nat) (remote : List SyncRecord)
    (pr : PushRecord) (rid : String) (h : rid ≠ pr.record_id) :
    serverMapGet (recordPush ts remote pr) rid = serverMapGet remote rid := by
  unfold recordPush
  by_cases hany : (remote.any (fun x => x.record_id = pr.record_id)) = true
  · rw [if_pos hany, serverMapGet_eq, ← List.map_reverse, List.find?_map,
      serverMapGet_eq]
    have hfn : ((fun r : SyncRecord => decide (r.record_id = rid))
          ∘ (fun x => if x.record_id = pr.record_id
              then pushedRecord ts pr else x))
        = fun x : SyncRecord => decide (x.record_id = rid) := by
      funext x
      by_cases hx : x.record_id = pr.record_id
      · have h1 : ¬ (pushedRecord ts pr).record_id = rid :=
          fun hh => h (hh.symm)
        have h2 : ¬ x.record_id = rid := fun hh => h ((hx ▸ hh).symm ▸ rfl)
        simp [hx, pushedRecord, fun hh : pr.record_id = rid => h hh.symm, h2]
      · simp [hx]
    rw [hfn]
    cases hf : remote.reverse.find? (fun r => decide (r.record_id = rid)) with
    | none => rfl
    | some x0 =>
        have hpx0 : x0.record_id = rid := by
          simpa using List.find?_some hf
        have hx0ne : ¬ x0.record_id = pr.record_id :=
          fun hh => h (hpx0 ▸ hh : rid = pr.record_id)
        simp [hx0ne]
  · rw [if_neg hany, serverMapGet_eq, List.reverse_append, serverMapGet_eq]
    have hpr : ¬ (pushedRecord ts pr).record_id = rid :=
      fun hh => h hh.symm
    simp [hpr]

theorem serverMapGet_applyPush_ne (ts : Nat) (rid : String) :
    ∀ (batch : List PushRecord) (remote : List SyncRecord),
      (∀ pr ∈ batch, pr.record_id ≠ rid) →
      serverMapGet (applyPush ts remote batch) rid
        = serverMapGet remote rid := by
  intro batch
  induction batch with
  | nil => intro remote _; rfl
  | cons q bs ih =>
      intro remote h
      unfold applyPush
      rw [List.foldl_cons]
      have h1 := ih (recordPush ts remote q)
        (fun pr hpr => h pr (List.mem_cons_of_mem _ hpr))
      unfold applyPush at h1
      rw [h1, serverMapGet_recordPush_ne ts remote q rid
        (fun hh => h q (List.mem_cons_self q bs) hh.symm)]

theorem serverMapGet_applyPush_self (ts : Nat) :
    ∀ (batch : List PushRecord) (remote : List SyncRecord)
      (pr : PushRecord),
      ((batch.map (fun x => x.record_id)).Nodup) → pr ∈ batch →
      serverMapGet (applyPush ts remote batch) pr.record_id
        = some (pushedRecord ts pr) := by
  intro batch
  induction batch with
  | nil => intro remote pr _ hpr; simp at hpr
  | cons q bs ih =>
      intro remote pr hnd hpr
      rw [List.map_cons, List.nodup_cons] at hnd
      unfold applyPush
      rw [List.foldl_cons]
      rcases List.mem_cons.mp hpr with hq | hbs
      · subst hq
        have hne : ∀ x ∈ bs, x.record_id ≠ pr.record_id := by
          intro x hx hh
          exact hnd.1 (hh ▸ List.mem_map_of_mem _ hx)
        have h1 := serverMapGet_applyPush_ne ts pr.record_id bs
          (recordPush ts remote pr) hne
        unfold applyPush at h1
        rw [h1, serverMapGet_recordPush_self]
      · exact ih (recordPush ts remote q) pr hnd.2 hbs

theorem recordPush_mem (ts : Nat) (remote : List SyncRecord)
    (pr : PushRecord) (x : SyncRecord)
    (hx : x ∈ recordPush ts remote pr) :
    x = pushedRecord ts pr ∨ x ∈ remote := by
  unfold recordPush at hx
  by_cases hany : (remote.any (fun y => y.record_id = pr.record_id)) = true
  · rw [if_pos hany] at hx
    obtain ⟨t, ht, hmk⟩ := List.mem_map.mp hx
    by_cases hh : t.record_id = pr.record_id
    · rw [if_pos hh] at hmk
      exact Or.inl hmk.symm
    · rw [if_neg hh] at hmk
      exact Or.inr (hmk ▸ ht)
  · rw [if_neg hany] at hx
    rcases List.mem_append.mp hx with h | h
    · exact Or.inr h
    · exact Or.inl (by simpa using h)

theorem applyPush_mem (ts : Nat) :
    ∀ (batch : List PushRecord) (remote : List SyncRecord)
      (x : SyncRecord), x ∈ applyPush ts remote batch →
      (∃ pr ∈ batch, x = pushedRecord ts pr) ∨ x ∈ remote := by
  intro batch
  induction batch with
  | nil => intro remote x hx; exact Or.inr hx
  | cons q bs ih =>
      intro remote x hx
      unfold applyPush at hx
      rw [List.foldl_cons] at hx
      rcases ih (recordPush ts remote q) x hx with ⟨pr, hpr, he⟩ | hmem
      · exact Or.inl ⟨pr, List.mem_cons_of_mem _ hpr, he⟩
      · rcases recordPush_mem ts remote q x hmem with he | hmem2
        · exact Or.inl ⟨q, List.mem_cons_self q bs, he⟩
        · exact Or.inr hmem2

theorem canonRid_of_B (r : SyncRecord) (h : canonRidB r = true) :
    canonRid r := by
  intro lid hp
  unfold canonRidB at h
  rw [hp] at h
  simpa using h

theorem mem_pushBatch (remote : List SyncRecord) (d o : String) (now : Nat)
    (db : List LocalTodo) (pr : PushRecord) :
    pr ∈ pushBatch remote d o now db ↔
      ∃ t, t ∈ db ∧ t.owner = o ∧ shouldPush remote now t = true ∧
        pr = mkPushRecord d now t := by
  unfold pushBatch
  constructor
  · intro h
    obtain ⟨t, ht, hmk⟩ := List.mem_map.mp h
    obtain ⟨ht2, hsp⟩ := List.mem_filter.mp ht
    obtain ⟨ht3, how⟩ := List.mem_filter.mp ht2
    exact ⟨t, ht3, by simpa using how, hsp, hmk.symm⟩
  · rintro ⟨t, ht, how, hsp, hmk⟩
    subst hmk
    exact List.mem_map_of_mem _ (List.mem_filter.mpr
      ⟨List.mem_filter.mpr ⟨ht, by simpa using how⟩, hsp⟩)

theorem pushBatch_rids_nodup (remote : List SyncRecord) (d o : String)
    (now : Nat) (db : List LocalTodo)
    (hids : (db.map (fun t => t.id)).Nodup) :
    ((pushBatch remote d o now db).map
      (fun pr => pr.record_id)).Nodup := by
  unfold pushBatch
  rw [List.map_map]
  have hcomp : ((fun pr : PushRecord => pr.record_id)
        ∘ mkPushRecord d now)
      = (fun s => "todo_" ++ s) ∘ (fun t : LocalTodo => t.id) := by
    funext t
    rfl
  rw [hcomp, ← List.map_map]
  refine List.Nodup.map ?_ ?_
  · intro a b hab
    exact todo_append_inj a b hab
  · have hsub : ((db.filter (fun t => t.owner = o)).filter
        (shouldPush remote now)).Sublist db :=
      ((db.filter (fun t => t.owner = o)).filter_sublist).trans
        (db.filter_sublist)
    exact List.Nodup.sublist (hsub.map (fun t => t.id)) hids

theorem pushBatch_canon (remote : List SyncRecord) (d o : String)
    (now : Nat) (db : List LocalTodo) (pr : PushRecord)
    (h : pr ∈ pushBatch remote d o now db) :
    canonRid (pushedRecord ts pr) := by
  obtain ⟨t, _, _, _, hmk⟩ := (mem_pushBatch remote d o now db pr).mp h
  subst hmk
  intro lid hp
  have : lid = t.id := parse_todo_append t.id lid hp
  subst this
  rfl

theorem recordPush_invariant (ts : Nat) (remote : List SyncRecord)
    (pr : PushRecord)
    (hnd : (remote.filterMap (fun r => parseRecordId r.record_id)).Nodup)
    (hcanonR : ∀ x ∈ remote, canonRid x)
    (hcanonP : canonRid (pushedRecord ts pr)) :
    ((recordPush ts remote pr).filterMap
        (fun r => parseRecordId r.record_id)).Nodup ∧
    (∀ x ∈ recordPush ts remote pr, canonRid x) := by
  unfold recordPush
  by_cases hany : (remote.any (fun x => x.record_id = pr.record_id)) = true
  · rw [if_pos hany]
    constructor
    · have hfm : (remote.map (fun x =>
            if x.record_id = pr.record_id then pushedRecord ts pr else x)
          ).filterMap (fun r => parseRecordId r.record_id)
          = remote.filterMap (fun r => parseRecordId r.record_id) := by
        rw [List.filterMap_map]
        refine List.filterMap_congr ?_
        intro x _
        simp only [Function.comp_apply]
        by_cases hx : x.record_id = pr.record_id
        · rw [if_pos hx]
          show parseRecordId pr.record_id = parseRecordId x.record_id
          rw [hx]
        · rw [if_neg hx]
      rw [hfm]
      exact hnd
    · intro x hx
      obtain ⟨t, ht, hmk⟩ := List.mem_map.mp hx
      by_cases hh : t.record_id = pr.record_id
      · rw [if_pos hh] at hmk
        exact hmk ▸ hcanonP
      · rw [if_neg hh] at hmk
        exact hmk ▸ hcanonR t ht
  · rw [if_neg hany]
    constructor
    · cases hpp : parseRecordId (pushedRecord ts pr).record_id with
      | none =>
          rw [List.filterMap_append]
          rw [@List.filterMap_cons_none _ _
            (fun r => parseRecordId r.record_id) (pushedRecord ts pr) []
            hpp]
          simpa using hnd
      | some lid =>
          rw [List.filterMap_append]
          rw [@List.filterMap_cons_some _ _
            (fun r => parseRecordId r.record_id) (pushedRecord ts pr) []
            lid hpp]
          have hnotin : lid ∉ remote.filterMap
              (fun r => parseRecordId r.record_id) := by
            intro hmem
            obtain ⟨x, hx, hpx⟩ := List.mem_filterMap.mp hmem
            have hxc : x.record_id = "todo_" ++ lid := hcanonR x hx lid hpx
            have hpc : (pushedRecord ts pr).record_id = "todo_" ++ lid :=
              hcanonP lid hpp
            have : x.record_id = pr.record_id := by
              rw [hxc]
              exact hpc.symm
            exact (by simpa using hany :
                ¬ ∃ y ∈ remote, y.record_id = pr.record_id)
              ⟨x, hx, this⟩
          have : (remote.filterMap (fun r => parseRecordId r.record_id)
              ++ [lid]).Nodup := by
            rw [List.nodup_append]
            refine ⟨hnd, by simp, ?_⟩
            intro a ha hb
            simp only [List.mem_singleton] at hb
            subst hb
            exact hnotin ha
          simpa using this
    · intro x hx
      rcases List.mem_append.mp hx with h | h
      · exact hcanonR x h
      · rw [List.mem_singleton] at h
        exact h ▸ hcanonP

theorem applyPush_invariant (ts : Nat) :
    ∀ (batch : List PushRecord) (remote : List SyncRecord),
      (remote.filterMap (fun r => parseRecordId r.record_id)).Nodup →
      (∀ x ∈ remote, canonRid x) →
      (∀ pr ∈ batch, canonRid (pushedRecord ts pr)) →
      ((applyPush ts remote batch).filterMap
          (fun r => parseRecordId r.record_id)).Nodup ∧
      (∀ x ∈ applyPush ts remote batch, canonRid x) := by
  intro batch
  induction batch with
  | nil => intro remote hnd hc _; exact ⟨hnd, hc⟩
  | cons q bs ih =>
      intro remote hnd hc hcb
      have hq := recordPush_invariant ts remote q hnd hc
        (hcb q (List.mem_cons_self q bs))
      unfold applyPush
      rw [List.foldl_cons]
      exact ih (recordPush ts remote q) hq.1 hq.2
        (fun pr hpr => hcb pr (List.mem_cons_of_mem _ hpr))

theorem pushLocalUpdatedAt_parses (t : LocalTodo)
    (h : parsesWithTime t = true) :
    ∃ u, ∀ n : Nat, pushLocalUpdatedAt n t = some u := by
  cases hp : t.payload with
  | none => simp [parsesWithTime, hp] at h
  | some p =>
      cases hm : p.meta with
      | none => simp [parsesWithTime, hp, hm] at h
      | some m =>
          have h2 : (m.updated_at.orElse (fun _ => m.created_at)).isSome
              = true := by
            simpa [parsesWithTime, hp, hm] using h
          obtain ⟨u, hu⟩ := Option.isSome_iff_exists.mp h2
          refine ⟨u, fun n => ?_⟩
          simp [pushLocalUpdatedAt, hp, hm, hu]

theorem pushLocalUpdatedAt_congr (t t' : LocalTodo)
    (h : t.payload = t'.payload) (n : Nat) :
    pushLocalUpdatedAt n t = pushLocalUpdatedAt n t' := by
  unfold pushLocalUpdatedAt
  rw [h]

theorem shouldPush_false_of (remote : List SyncRecord) (n : Nat)
    (t : LocalTodo) (sr : SyncRecord)
    (hmap : serverMapGet remote ("todo_" ++ t.id) = some sr)
    (hle : tval (pushLocalUpdatedAt n t) ≤ tval sr.updated_at) :
    shouldPush remote n t = false := by
  unfold shouldPush
  rw [hmap]
  simp [Nat.not_lt.mpr hle]

theorem shouldPush_false_elim (remote : List SyncRecord) (n : Nat)
    (t : LocalTodo) (h : shouldPush remote n t = false) :
    ∃ sr, serverMapGet remote ("todo_" ++ t.id) = some sr ∧
      tval (pushLocalUpdatedAt n t) ≤ tval sr.updated_at := by
  unfold shouldPush at h
  cases hm : serverMapGet remote ("todo_" ++ t.id) with
  | none => rw [hm] at h; simp at h
  | some sr =>
      rw [hm] at h
      simp only [Option.isNone_some, Bool.false_or, Option.some_bind,
        decide_eq_false_iff_not, Nat.not_lt] at h
      exact ⟨sr, rfl, h⟩

theorem pushBatch_eq_nil (remote : List SyncRecord) (d o : String)
    (now : Nat) (db : List LocalTodo)
    (h : ∀ t ∈ db, t.owner = o → shouldPush remote now t = false) :
    pushBatch remote d o now db = [] := by
  unfold pushBatch
  rw [List.map_eq_nil_iff, List.filter_eq_nil_iff]
  intro t ht
  obtain ⟨ht2, how⟩ := List.mem_filter.mp ht
  rw [h t ht2 (by simpa using how)]
  simp

end SyncEngine

/-! ### C9 — publish debounce -/

/-- C9: two `publish()` calls whose invocation times lie inside one
debounce window (the second strictly less than `DEBOUNCE_MS` after the
first, which itself is past any earlier window) send exactly one outbound
message: the first returns `true` (sent), the second `false` (skipped). -/
theorem publish_debounce_single_message
    (st : Notifier.NotifierState) (t1 t2 : Nat)
    (h1 : st.lastPublishTime + Notifier.DEBOUNCE_MS ≤ t1)
    (h12 : t1 ≤ t2) (h2 : t2 < t1 + Notifier.DEBOUNCE_MS) :
    (Notifier.publish st t1 true).2 = true ∧
    (Notifier.publish (Notifier.publish st t1 true).1 t2 true).2 = false := by
  have e1 : Notifier.publish st t1 true = (⟨t1⟩, true) := by
    unfold Notifier.publish
    rw [if_neg (by simp only [Notifier.DEBOUNCE_MS] at h1 ⊢; omega)]
    rfl
  refine ⟨by rw [e1], ?_⟩
  rw [e1]
  unfold Notifier.publish
  rw [if_pos (by simp only [Notifier.DEBOUNCE_MS] at h2 ⊢; omega)]

/-- Witness for C9 at concrete times. -/
theorem publish_debounce_single_message_witness :
    (Notifier.publish ⟨0⟩ 5000 true).2 = true ∧
    (Notifier.publish (Notifier.publish ⟨0⟩ 5000 true).1 6000 true).2 = false :=
  publish_debounce_single_message ⟨0⟩ 5000 6000 (by decide) (by decide)
    (by decide)

/-! ### C3 — incremental fetch scoped by the sync watermark -/

/-- C3: an incremental background sync passes the owner's stored sync
watermark as the `since` query parameter of the fetch; a full sync sends
no `since` parameter whatever the stored watermark is, and `performSync`'s
own fetch never sends one. -/
theorem incremental_fetch_scoped_by_watermark
    (w : String) (hw : w ≠ "") (stored : Option String) :
    FetchScope.backgroundSyncQuerySince false (some w) = some w ∧
    FetchScope.backgroundSyncQuerySince true stored = none ∧
    FetchScope.performSyncQuerySince = none := by
  refine ⟨?_, ?_, rfl⟩
  · simp [FetchScope.backgroundSyncQuerySince,
      FetchScope.backgroundSyncSinceOption, FetchScope.fetchSinceParam, hw]
  · simp [FetchScope.backgroundSyncQuerySince,
      FetchScope.backgroundSyncSinceOption, FetchScope.fetchSinceParam]

/-- Witness for C3 at a concrete watermark. -/
theorem incremental_fetch_scoped_by_watermark_witness :
    FetchScope.backgroundSyncQuerySince false (some "2024-01-01") = some "2024-01-01" ∧
    FetchScope.backgroundSyncQuerySince true (some "2024-01-01") = none ∧
    FetchScope.performSyncQuerySince = none :=
  incremental_fetch_scoped_by_watermark "2024-01-01" (by decide)
    (some "2024-01-01")

/-! ### C2 — update preserves the server watermark -/

/-- C2: a successful `updateTodo` stores a payload whose `updated_at` is
the fresh timestamp `now`, and carries the prior row's
`server_updated_at` over verbatim (present values copied forward, absent
stays absent); the push/merge code of `sync()` is the only writer of that
field elsewhere. -/
theorem update_preserves_server_watermark
    (db : DbStore.DB) (id : String) (patch : DbStore.TodoPatch) (now : Nat)
    (db' : DbStore.DB)
    (h : DbStore.updateTodo db id patch now = .ok db') :
    ∃ old, DbStore.dbGet db id = some old ∧
      ∃ new, DbStore.dbGet db' id = some new ∧
        new.server_updated_at = old.server_updated_at ∧
        ∃ d, new.payload = some d ∧ d.updated_at = some now := by
  unfold DbStore.updateTodo at h
  cases hget : DbStore.dbGet db id with
  | none => rw [hget] at h; exact absurd h (by simp)
  | some old =>
      rw [hget] at h
      simp only [Except.ok.injEq] at h
      have hid : old.id = id := by
        have := List.find?_some hget
        simpa using this
      refine ⟨old, rfl, ?_⟩
      subst h
      rw [show (DbStore.decryptTodo old).id = id from hid]
      exact ⟨_, DbStore.dbGet_dbPut_store db _, rfl, _, rfl, rfl⟩

/-- Witness for C2 at a concrete row and patch. -/
theorem update_preserves_server_watermark_witness :
    ∃ old, DbStore.dbGet [Inputs.sampleRow] "a1" = some old ∧
      ∃ new, DbStore.dbGet
          (DbStore.dbPut [Inputs.sampleRow]
            { id := "a1", owner := "npub1o"
            , payload := some (DbStore.mergeTodo Inputs.sampleData
                (DbStore.applyDoneForcing { title := some "x" }) 9)
            , server_updated_at := some 3 }) "a1" = some new ∧
        new.server_updated_at = old.server_updated_at ∧
        ∃ d, new.payload = some d ∧ d.updated_at = some 9 :=
  update_preserves_server_watermark [Inputs.sampleRow] "a1"
    { title := some "x" } 9 _ (by rfl)

/-! ### C1 — pending local edits are never overwritten -/

/-- C1: if a local row has pending local edits (its parsed payload's
`updated_at` strictly exceeds the stored `server_updated_at`), then a
completed `performSync` never replaces its payload, however large the
fetched records' server timestamps are.  The fetch is assumed to contain
at most one record for this local id (the record service stores one record
per record id). -/
theorem sync_never_replaces_pending_payload
    (d o : String) (now : Nat) (remote : List SyncEngine.SyncRecord)
    (db0 : List SyncEngine.LocalTodo) (id : String) (t : SyncEngine.LocalTodo)
    (huniq : (remote.filter
        (fun x => SyncEngine.parseRecordId x.record_id = some id)).length ≤ 1)
    (hget : SyncEngine.dbGet db0 id = some t)
    (p : SyncEngine.Payload) (m : SyncEngine.PMeta) (u : Nat)
    (hp : t.payload = some p) (hm : p.meta = some m)
    (hu : m.updated_at = some u)
    (hpend : SyncEngine.tval t.server_updated_at < u) :
    ∃ t', SyncEngine.dbGet
        (SyncEngine.performSync d o now remote db0).db id = some t' ∧
      t'.payload = t.payload := by
  have hpending : SyncEngine.pendingChanges t = true := by
    rw [SyncEngine.pendingChanges_parsed t p m u hp hm hu]
    simpa using hpend
  unfold SyncEngine.performSync
  dsimp only
  by_cases hex : ∃ r ∈ remote, SyncEngine.parseRecordId r.record_id = some id
  · obtain ⟨r, hr, hpr⟩ := hex
    rw [SyncEngine.mergeFold_entry_single d o id r hpr remote _ hr huniq]
    refine ⟨_, rfl, ?_⟩
    show (SyncEngine.entryStep d o (SyncEngine.dbGet db0 id) r id).payload
      = t.payload
    rw [hget, SyncEngine.entryStep_some]
    by_cases hdev : r.md_device_id = some d
    · rw [if_pos hdev]
      split <;> rfl
    · rw [if_neg hdev, if_neg (by simp [hpending])]
  · push_neg at hex
    rw [SyncEngine.mergeFold_entry_other d o id remote _
      (fun r hr => by simpa using hex r hr)]
    exact ⟨t, hget, rfl⟩

/-- Witness for C1: a pending row survives a much newer foreign record. -/
theorem sync_never_replaces_pending_payload_witness :
    ∃ t', SyncEngine.dbGet
        (SyncEngine.performSync "mydev" "npub1o" 50
          [Inputs.foreignRecord] [Inputs.pendingTodo]).db "ab" = some t' ∧
      t'.payload = Inputs.pendingTodo.payload :=
  sync_never_replaces_pending_payload "mydev" "npub1o" 50
    [Inputs.foreignRecord] [Inputs.pendingTodo] "ab" Inputs.pendingTodo
    (by decide) (by decide) _ _ 10 rfl rfl rfl (by decide)

/-! ### C4 — decryption failure treated as pending edits -/

/-- C4: during the merge pass, a local row whose payload fails to parse is
treated exactly like one with pending local edits: the pending check
returns `true`, and the row is left completely unchanged (the remote
payload is not taken) whatever the remote record's `serverUpdatedAt`. -/
theorem sync_parse_failure_fail_safe
    (d o : String) (now : Nat) (remote : List SyncEngine.SyncRecord)
    (db0 : List SyncEngine.LocalTodo) (r : SyncEngine.SyncRecord)
    (id : String) (t : SyncEngine.LocalTodo) (p : SyncEngine.Payload)
    (hr : r ∈ remote)
    (hparse : SyncEngine.parseRecordId r.record_id = some id)
    (huniq : (remote.filter
        (fun x => SyncEngine.parseRecordId x.record_id = some id)).length ≤ 1)
    (hdev : r.md_device_id ≠ some d)
    (hget : SyncEngine.dbGet db0 id = some t)
    (hp : t.payload = some p) (hm : p.meta = none) :
    SyncEngine.pendingChanges t = true ∧
    SyncEngine.dbGet
      (SyncEngine.performSync d o now remote db0).db id = some t := by
  have hpending : SyncEngine.pendingChanges t = true :=
    SyncEngine.pendingChanges_unparsed t p hp hm
  refine ⟨hpending, ?_⟩
  unfold SyncEngine.performSync
  dsimp only
  rw [SyncEngine.mergeFold_entry_single d o id r hparse remote _ hr huniq]
  show some (SyncEngine.entryStep d o (SyncEngine.dbGet db0 id) r id) = some t
  rw [hget, SyncEngine.entryStep_some, if_neg hdev,
    if_neg (by simp [hpending])]

/-- Witness for C4: an unparseable local row survives a newer foreign
record untouched. -/
theorem sync_parse_failure_fail_safe_witness :
    SyncEngine.pendingChanges Inputs.unparseableTodo = true ∧
    SyncEngine.dbGet
      (SyncEngine.performSync "mydev" "npub1o" 50
        [Inputs.foreignRecordCd] [Inputs.unparseableTodo]).db "cd"
      = some Inputs.unparseableTodo :=
  sync_parse_failure_fail_safe "mydev" "npub1o" 50
    [Inputs.foreignRecordCd] [Inputs.unparseableTodo]
    Inputs.foreignRecordCd "cd" Inputs.unparseableTodo _
    (by decide) (by decide) (by decide) (by decide) (by decide) rfl rfl

/-! ### C6 — echoes only advance the watermark -/

/-- C6: a fetched record carrying our own device id that matches an
existing local row (an echo of our prior push) never modifies the local
payload, owner or id; it advances `server_updated_at` to the remote
timestamp exactly when that is strictly newer than the stored watermark,
and leaves it unchanged otherwise. -/
theorem sync_echo_only_advances_watermark
    (d o : String) (now : Nat) (remote : List SyncEngine.SyncRecord)
    (db0 : List SyncEngine.LocalTodo) (r : SyncEngine.SyncRecord)
    (id : String) (t : SyncEngine.LocalTodo)
    (hr : r ∈ remote)
    (hparse : SyncEngine.parseRecordId r.record_id = some id)
    (huniq : (remote.filter
        (fun x => SyncEngine.parseRecordId x.record_id = some id)).length ≤ 1)
    (hdev : r.md_device_id = some d)
    (hget : SyncEngine.dbGet db0 id = some t) :
    ∃ t', SyncEngine.dbGet
        (SyncEngine.performSync d o now remote db0).db id = some t' ∧
      t'.payload = t.payload ∧ t'.owner = t.owner ∧ t'.id = t.id ∧
      (SyncEngine.tval t.server_updated_at < SyncEngine.tval r.updated_at →
        t'.server_updated_at = r.updated_at) ∧
      (¬ SyncEngine.tval t.server_updated_at < SyncEngine.tval r.updated_at →
        t'.server_updated_at = t.server_updated_at) := by
  unfold SyncEngine.performSync
  dsimp only
  rw [SyncEngine.mergeFold_entry_single d o id r hparse remote _ hr huniq]
  refine ⟨_, rfl, ?_⟩
  show (SyncEngine.entryStep d o (SyncEngine.dbGet db0 id) r id).payload
        = t.payload ∧ _
  rw [hget, SyncEngine.entryStep_some, if_pos hdev]
  by_cases hlt : SyncEngine.tval t.server_updated_at
      < SyncEngine.tval r.updated_at
  · have hsome : r.updated_at.isSome = true := by
      cases hru : r.updated_at with
      | none => rw [hru] at hlt; simp [SyncEngine.tval] at hlt
      | some v => rfl
    rw [if_pos ⟨hsome, hlt⟩]
    exact ⟨rfl, rfl, rfl, fun _ => rfl, fun hn => absurd hlt hn⟩
  · rw [if_neg (fun hc => hlt hc.2)]
    exact ⟨rfl, rfl, rfl, fun hc => absurd hc hlt, fun _ => rfl⟩

/-- Witness for C6: an echo with a newer server stamp advances the
watermark and nothing else. -/
theorem sync_echo_only_advances_watermark_witness :
    ∃ t', SyncEngine.dbGet
        (SyncEngine.performSync "mydev" "npub1o" 50
          [Inputs.echoRecord] [Inputs.pendingTodo]).db "ab" = some t' ∧
      t'.payload = Inputs.pendingTodo.payload ∧
      t'.owner = Inputs.pendingTodo.owner ∧ t'.id = Inputs.pendingTodo.id ∧
      (SyncEngine.tval Inputs.pendingTodo.server_updated_at
          < SyncEngine.tval Inputs.echoRecord.updated_at →
        t'.server_updated_at = Inputs.echoRecord.updated_at) ∧
      (¬ SyncEngine.tval Inputs.pendingTodo.server_updated_at
          < SyncEngine.tval Inputs.echoRecord.updated_at →
        t'.server_updated_at = Inputs.pendingTodo.server_updated_at) :=
  sync_echo_only_advances_watermark "mydev" "npub1o" 50
    [Inputs.echoRecord] [Inputs.pendingTodo] Inputs.echoRecord "ab"
    Inputs.pendingTodo (by decide) (by decide) (by decide) (by decide)
    (by decide)

/-! ### C5 — push pass pushes exactly the strictly-newer records -/

/-- C5: after the merge pass, a local row of the owner whose payload
parses to `updated_at = u` is put in the push batch exactly when it is
absent from the fetched server map or `u` is strictly greater than the
mapped record's server timestamp (ties are not pushed); its batch entry is
`mkPushRecord`, tagged with this device's id and its own `updated_at`, and
every batch entry carries the device id.  The batch is handed to a single
`syncRecords` call and the push pass writes nothing to the local store. -/
theorem push_pass_strictly_newer_only
    (d o : String) (now : Nat) (remote : List SyncEngine.SyncRecord)
    (db0 : List SyncEngine.LocalTodo)
    (hids : ((SyncEngine.performSync d o now remote db0).db.map
        (fun t => t.id)).Nodup)
    (t : SyncEngine.LocalTodo)
    (ht : t ∈ (SyncEngine.performSync d o now remote db0).db)
    (howner : t.owner = o)
    (p : SyncEngine.Payload) (m : SyncEngine.PMeta) (u : Nat)
    (hp : t.payload = some p) (hm : p.meta = some m)
    (hu : m.updated_at = some u) :
    ((∃ pr ∈ (SyncEngine.performSync d o now remote db0).batch,
        pr.md_local_id = t.id)
      ↔ (SyncEngine.serverMapGet remote ("todo_" ++ t.id) = none ∨
          SyncEngine.tval ((SyncEngine.serverMapGet remote
              ("todo_" ++ t.id)).bind (fun x => x.updated_at)) < u)) ∧
    (∀ pr ∈ (SyncEngine.performSync d o now remote db0).batch,
      pr.md_local_id = t.id → pr = SyncEngine.mkPushRecord d now t) ∧
    (SyncEngine.mkPushRecord d now t).md_device_id = d ∧
    (SyncEngine.mkPushRecord d now t).md_updated_at = some u ∧
    (∀ pr ∈ (SyncEngine.performSync d o now remote db0).batch,
      pr.md_device_id = d) := by
  have hplu : SyncEngine.pushLocalUpdatedAt now t = some u := by
    simp [SyncEngine.pushLocalUpdatedAt, hp, hm, hu]
  have hsp : SyncEngine.shouldPush remote now t = true ↔
      (SyncEngine.serverMapGet remote ("todo_" ++ t.id) = none ∨
        SyncEngine.tval ((SyncEngine.serverMapGet remote
            ("todo_" ++ t.id)).bind (fun x => x.updated_at)) < u) := by
    unfold SyncEngine.shouldPush
    rw [hplu]
    simp [SyncEngine.tval, Option.isNone_iff_eq_none]
  have hbatch : (SyncEngine.performSync d o now remote db0).batch
      = SyncEngine.pushBatch remote d o now
          (SyncEngine.performSync d o now remote db0).db := rfl
  refine ⟨⟨?_, ?_⟩, ?_, rfl, by simpa [SyncEngine.mkPushRecord] using hplu, ?_⟩
  · rintro ⟨pr, hpr, hid⟩
    rw [hbatch] at hpr
    unfold SyncEngine.pushBatch at hpr
    obtain ⟨t', ht', hmk⟩ := List.mem_map.mp hpr
    obtain ⟨ht'2, hsp'⟩ := List.mem_filter.mp ht'
    obtain ⟨ht'3, _⟩ := List.mem_filter.mp ht'2
    have hid' : t'.id = t.id := by
      rw [← hmk] at hid
      simpa [SyncEngine.mkPushRecord] using hid
    have htt : t' = t :=
      List.inj_on_of_nodup_map hids ht'3 ht hid'
    subst htt
    exact hsp.mp (by simpa using hsp')
  · intro hcond
    refine ⟨SyncEngine.mkPushRecord d now t, ?_, rfl⟩
    rw [hbatch]
    unfold SyncEngine.pushBatch
    refine List.mem_map_of_mem _ (List.mem_filter.mpr ⟨?_, ?_⟩)
    · exact List.mem_filter.mpr ⟨ht, by simpa using howner⟩
    · simpa using hsp.mpr hcond
  · intro pr hpr hid
    rw [hbatch] at hpr
    unfold SyncEngine.pushBatch at hpr
    obtain ⟨t', ht', hmk⟩ := List.mem_map.mp hpr
    obtain ⟨ht'2, _⟩ := List.mem_filter.mp ht'
    obtain ⟨ht'3, _⟩ := List.mem_filter.mp ht'2
    have hid' : t'.id = t.id := by
      rw [← hmk] at hid
      simpa [SyncEngine.mkPushRecord] using hid
    have htt : t' = t :=
      List.inj_on_of_nodup_map hids ht'3 ht hid'
    rw [← hmk, htt]
  · intro pr hpr
    rw [hbatch] at hpr
    unfold SyncEngine.pushBatch at hpr
    obtain ⟨t', _, hmk⟩ := List.mem_map.mp hpr
    rw [← hmk]
    rfl

/-- Witness for C5: a row already known to the server with an older local
timestamp is not pushed, and the tagging facts hold. -/
theorem push_pass_strictly_newer_only_witness :
    ((∃ pr ∈ (SyncEngine.performSync "mydev" "npub1o" 50
        [Inputs.foreignRecord] [Inputs.pendingTodo]).batch,
        pr.md_local_id = Inputs.pendingTodo.id)
      ↔ (SyncEngine.serverMapGet [Inputs.foreignRecord]
            ("todo_" ++ Inputs.pendingTodo.id) = none ∨
          SyncEngine.tval ((SyncEngine.serverMapGet [Inputs.foreignRecord]
              ("todo_" ++ Inputs.pendingTodo.id)).bind
              (fun x => x.updated_at)) < 10)) ∧
    (∀ pr ∈ (SyncEngine.performSync "mydev" "npub1o" 50
        [Inputs.foreignRecord] [Inputs.pendingTodo]).batch,
      pr.md_local_id = Inputs.pendingTodo.id →
        pr = SyncEngine.mkPushRecord "mydev" 50 Inputs.pendingTodo) ∧
    (SyncEngine.mkPushRecord "mydev" 50 Inputs.pendingTodo).md_device_id
      = "mydev" ∧
    (SyncEngine.mkPushRecord "mydev" 50 Inputs.pendingTodo).md_updated_at
      = some 10 ∧
    (∀ pr ∈ (SyncEngine.performSync "mydev" "npub1o" 50
        [Inputs.foreignRecord] [Inputs.pendingTodo]).batch,
      pr.md_device_id = "mydev") :=
  push_pass_strictly_newer_only "mydev" "npub1o" 50 [Inputs.foreignRecord]
    [Inputs.pendingTodo] (by decide) Inputs.pendingTodo (by decide)
    (by decide) _ _ 10 rfl rfl rfl

/-! ### C7 — idempotence of a second sync (corrected) -/

/-- C7 as stated is false on the code: a local row whose payload cannot be
parsed is stamped with the *current time* in the push pass, so even with
no local edit and no remote change after the first sync (the service
merely records that sync's own push), the second sync pushes the row
again: here both syncs report `pushed = 1`, where the claim requires the
second to report `pushed = 0`. -/
theorem sync_idempotence_cex :
    (SyncEngine.performSync "mydev" "npub1o" 50 []
      [Inputs.unparseableTodo]).pushed = 1 ∧
    (SyncEngine.performSync "mydev" "npub1o" 100
      (SyncEngine.applyPush 60 []
        (SyncEngine.performSync "mydev" "npub1o" 50 []
          [Inputs.unparseableTodo]).batch)
      (SyncEngine.performSync "mydev" "npub1o" 50 []
        [Inputs.unparseableTodo]).db).pushed = 1 :=
  ⟨by decide, by decide⟩

/-- C7 amended: a second `performSync` with no intervening local edits and
no remote change beyond the service recording the first sync's own push
returns `{pulled = 0, updated = 0, pushed = 0}`, provided the fetch is
well-formed (at most one record per local id, canonical `todo_` record
ids), local ids are unique, every local row of the owner after the first
sync has a payload parsing to a timestamp, and the service-assigned
timestamp of the push is at least the pushed rows' tagged timestamps. -/
theorem sync_idempotent_amended
    (d o : String) (now1 now2 ts : Nat)
    (remote1 : List SyncEngine.SyncRecord)
    (db0 : List SyncEngine.LocalTodo)
    (hnd : (remote1.filterMap
        (fun r => SyncEngine.parseRecordId r.record_id)).Nodup)
    (hcanon : ∀ r ∈ remote1, SyncEngine.canonRidB r = true)
    (hids : (db0.map (fun t => t.id)).Nodup)
    (hparse : ∀ t ∈ (SyncEngine.performSync d o now1 remote1 db0).db,
        t.owner = o → SyncEngine.parsesWithTime t = true)
    (hts : ∀ pr ∈ (SyncEngine.performSync d o now1 remote1 db0).batch,
        SyncEngine.tval pr.md_updated_at ≤ ts) :
    (SyncEngine.performSync d o now2
        (SyncEngine.applyPush ts remote1
          (SyncEngine.performSync d o now1 remote1 db0).batch)
        (SyncEngine.performSync d o now1 remote1 db0).db).pulled = 0 ∧
    (SyncEngine.performSync d o now2
        (SyncEngine.applyPush ts remote1
          (SyncEngine.performSync d o now1 remote1 db0).batch)
        (SyncEngine.performSync d o now1 remote1 db0).db).updated = 0 ∧
    (SyncEngine.performSync d o now2
        (SyncEngine.applyPush ts remote1
          (SyncEngine.performSync d o now1 remote1 db0).batch)
        (SyncEngine.performSync d o now1 remote1 db0).db).pushed = 0 := by
  classical
  have hcanon' : ∀ x ∈ remote1, SyncEngine.canonRid x :=
    fun x hx => SyncEngine.canonRid_of_B x (hcanon x hx)
  have hids1 : ((SyncEngine.performSync d o now1 remote1 db0).db.map
      (fun t => t.id)).Nodup :=
    SyncEngine.mergeFold_nodup_ids d o remote1
      { db := db0, pulled := 0, updated := 0 } hids
  have hbcanon : ∀ pr ∈ (SyncEngine.performSync d o now1 remote1 db0).batch,
      SyncEngine.canonRid (SyncEngine.pushedRecord ts pr) :=
    fun pr hpr => SyncEngine.pushBatch_canon remote1 d o now1
      (SyncEngine.performSync d o now1 remote1 db0).db pr hpr
  have hinv := SyncEngine.applyPush_invariant ts
    (SyncEngine.performSync d o now1 remote1 db0).batch remote1 hnd
    hcanon' hbcanon
  have hsafe : ∀ r2 ∈ SyncEngine.applyPush ts remote1
      (SyncEngine.performSync d o now1 remote1 db0).batch,
      SyncEngine.SafeRec d
        (SyncEngine.performSync d o now1 remote1 db0).db r2 := by
    intro r2 hr2
    rcases SyncEngine.applyPush_mem ts _ remote1 r2 hr2 with
      ⟨pr, hpr, he⟩ | hmem
    · obtain ⟨t, ht, how, hsp, hmk⟩ :=
        (SyncEngine.mem_pushBatch remote1 d o now1
          (SyncEngine.performSync d o now1 remote1 db0).db pr).mp hpr
      subst hmk
      subst he
      intro lid hplid
      have hplid' : SyncEngine.parseRecordId ("todo_" ++ t.id)
          = some lid := hplid
      have hlid : lid = t.id :=
        SyncEngine.parse_todo_append t.id lid hplid'
      subst hlid
      exact ⟨t, SyncEngine.dbGet_of_mem_nodup hids1 ht, Or.inl rfl⟩
    · intro lid hplid
      have huniq :=
        SyncEngine.count_le_one_of_filterMap_nodup lid remote1 hnd
      have hentry := SyncEngine.mergeFold_entry_single d o lid r2 hplid
        remote1 { db := db0, pulled := 0, updated := 0 } hmem huniq
      exact ⟨_, hentry, SyncEngine.entryStep_safe d o
        (SyncEngine.dbGet db0 lid) r2 lid⟩
  have hfold := SyncEngine.mergeFold_safe d o
    (SyncEngine.applyPush ts remote1
      (SyncEngine.performSync d o now1 remote1 db0).batch)
    { db := (SyncEngine.performSync d o now1 remote1 db0).db
    , pulled := 0, updated := 0 }
    hinv.1 hids1 hsafe
  refine ⟨hfold.1, hfold.2.1, ?_⟩
  have hstrip2 : ((SyncEngine.performSync d o now2
      (SyncEngine.applyPush ts remote1
        (SyncEngine.performSync d o now1 remote1 db0).batch)
      (SyncEngine.performSync d o now1 remote1 db0).db).db).map
        SyncEngine.stripWm
      = ((SyncEngine.performSync d o now1 remote1 db0).db).map
        SyncEngine.stripWm := hfold.2.2
  have hnil := SyncEngine.pushBatch_eq_nil
    (SyncEngine.applyPush ts remote1
      (SyncEngine.performSync d o now1 remote1 db0).batch)
    d o now2
    ((SyncEngine.performSync d o now2
      (SyncEngine.applyPush ts remote1
        (SyncEngine.performSync d o now1 remote1 db0).batch)
      (SyncEngine.performSync d o now1 remote1 db0).db).db)
    ?_
  · exact congrArg List.length hnil
  intro t2 ht2 how2
  have hmem2 : SyncEngine.stripWm t2 ∈
      ((SyncEngine.performSync d o now2
        (SyncEngine.applyPush ts remote1
          (SyncEngine.performSync d o now1 remote1 db0).batch)
        (SyncEngine.performSync d o now1 remote1 db0).db).db).map
          SyncEngine.stripWm :=
    List.mem_map_of_mem _ ht2
  rw [hstrip2] at hmem2
  obtain ⟨t1, ht1, hstrip⟩ := List.mem_map.mp hmem2
  obtain ⟨hid, hown, hpay⟩ := SyncEngine.stripWm_fields t1 t2 hstrip
  have how1 : t1.owner = o := by rw [hown]; exact how2
  have hpt1 : SyncEngine.parsesWithTime t1 = true := hparse t1 ht1 how1
  obtain ⟨u, hu⟩ := SyncEngine.pushLocalUpdatedAt_parses t1 hpt1
  have hu2 : ∀ n, SyncEngine.pushLocalUpdatedAt n t2 = some u := by
    intro n
    rw [SyncEngine.pushLocalUpdatedAt_congr t2 t1 hpay.symm n]
    exact hu n
  cases hsp1 : SyncEngine.shouldPush remote1 now1 t1 with
  | true =>
      have hpr : SyncEngine.mkPushRecord d now1 t1 ∈
          (SyncEngine.performSync d o now1 remote1 db0).batch :=
        (SyncEngine.mem_pushBatch remote1 d o now1
          (SyncEngine.performSync d o now1 remote1 db0).db
          (SyncEngine.mkPushRecord d now1 t1)).mpr
          ⟨t1, ht1, how1, hsp1, rfl⟩
      have hbrids := SyncEngine.pushBatch_rids_nodup remote1 d o now1
        (SyncEngine.performSync d o now1 remote1 db0).db hids1
      have hmap := SyncEngine.serverMapGet_applyPush_self ts
        (SyncEngine.performSync d o now1 remote1 db0).batch remote1
        (SyncEngine.mkPushRecord d now1 t1) hbrids hpr
      have hmap2 : SyncEngine.serverMapGet
          (SyncEngine.applyPush ts remote1
            (SyncEngine.performSync d o now1 remote1 db0).batch)
          ("todo_" ++ t2.id)
          = some (SyncEngine.pushedRecord ts
              (SyncEngine.mkPushRecord d now1 t1)) := by
        rw [← hid]
        exact hmap
      apply SyncEngine.shouldPush_false_of _ now2 t2 _ hmap2
      rw [hu2 now2]
      have hmd : (SyncEngine.mkPushRecord d now1 t1).md_updated_at
          = some u := hu now1
      have hts1 := hts (SyncEngine.mkPushRecord d now1 t1) hpr
      rw [hmd] at hts1
      exact hts1
  | false =>
      obtain ⟨sr, hsr, hle⟩ :=
        SyncEngine.shouldPush_false_elim remote1 now1 t1 hsp1
      have hnotb : ∀ pr' ∈ (SyncEngine.performSync d o now1 remote1
          db0).batch, pr'.record_id ≠ "todo_" ++ t1.id := by
        intro pr' hpr' hh
        obtain ⟨t', ht', how', hsp', hmk'⟩ :=
          (SyncEngine.mem_pushBatch remote1 d o now1
            (SyncEngine.performSync d o now1 remote1 db0).db pr').mp hpr'
        subst hmk'
        have hih : t'.id = t1.id := SyncEngine.todo_append_inj _ _ hh
        have htt : t' = t1 := List.inj_on_of_nodup_map hids1 ht' ht1 hih
        rw [htt, hsp1] at hsp'
        cases hsp'
      have hmapeq := SyncEngine.serverMapGet_applyPush_ne ts
        ("todo_" ++ t1.id)
        (SyncEngine.performSync d o now1 remote1 db0).batch remote1 hnotb
      have hmap2 : SyncEngine.serverMapGet
          (SyncEngine.applyPush ts remote1
            (SyncEngine.performSync d o now1 remote1 db0).batch)
          ("todo_" ++ t2.id) = some sr := by
        rw [← hid, hmapeq]
        exact hsr
      apply SyncEngine.shouldPush_false_of _ now2 t2 sr hmap2
      rw [hu2 now2]
      rw [hu now1] at hle
      exact hle

/-- Witness for the amended C7: one pending local row and one foreign
remote row; the first sync pulls nothing, skips the conflicting remote
(pending edits) and pushes the local row, the service records it at
timestamp 60, and the second sync reports zero everywhere. -/
theorem sync_idempotent_amended_witness :
    (SyncEngine.performSync "mydev" "npub1o" 200
      (SyncEngine.applyPush 60 [Inputs.foreignRecordCd]
        (SyncEngine.performSync "mydev" "npub1o" 50 [Inputs.foreignRecordCd]
          [Inputs.pendingTodo]).batch)
      (SyncEngine.performSync "mydev" "npub1o" 50 [Inputs.foreignRecordCd]
        [Inputs.pendingTodo]).db).pulled = 0 ∧
    (SyncEngine.performSync "mydev" "npub1o" 200
      (SyncEngine.applyPush 60 [Inputs.foreignRecordCd]
        (SyncEngine.performSync "mydev" "npub1o" 50 [Inputs.foreignRecordCd]
          [Inputs.pendingTodo]).batch)
      (SyncEngine.performSync "mydev" "npub1o" 50 [Inputs.foreignRecordCd]
        [Inputs.pendingTodo]).db).updated = 0 ∧
    (SyncEngine.performSync "mydev" "npub1o" 200
      (SyncEngine.applyPush 60 [Inputs.foreignRecordCd]
        (SyncEngine.performSync "mydev" "npub1o" 50 [Inputs.foreignRecordCd]
          [Inputs.pendingTodo]).batch)
      (SyncEngine.performSync "mydev" "npub1o" 50 [Inputs.foreignRecordCd]
        [Inputs.pendingTodo]).db).pushed = 0 :=
  sync_idempotent_amended "mydev" "npub1o" 50 200 60
    [Inputs.foreignRecordCd] [Inputs.pendingTodo]
    (by decide) (by decide) (by decide) (by decide) (by decide)

/-! ### C8 — decryption failure on read is recoverable -/

/-- C8: reading a stored row whose payload fails to decrypt never throws:
`getTodoById` returns the clearly-marked placeholder (title
`[Encrypted - unable to decrypt]`), and every other record of the same
owner is still decrypted and returned by `getTodosByOwner` (every
decryptable record with `includeDeleted`, every decryptable non-deleted
record without). -/
theorem decrypt_failure_on_read_recoverable
    (db : DbStore.DB) (id : String) (rec : DbStore.StoredTodo)
    (hget : DbStore.dbGet db id = some rec) (hbad : rec.payload = none) :
    DbStore.getTodoById db id =
      some { id := rec.id, owner := rec.owner, data := DbStore.placeholderData } ∧
    (DbStore.getTodoById db id).map (fun t => t.data.title)
      = some "[Encrypted - unable to decrypt]" ∧
    ∀ t ∈ db, t.owner = rec.owner →
      ∀ d, t.payload = some d →
        DbStore.decryptTodo t ∈ DbStore.getTodosByOwner db rec.owner true ∧
        (d.deleted = 0 →
          DbStore.decryptTodo t ∈ DbStore.getTodosByOwner db rec.owner false) := by
  have h1 : DbStore.getTodoById db id =
      some { id := rec.id, owner := rec.owner, data := DbStore.placeholderData } := by
    unfold DbStore.getTodoById
    rw [hget]
    simp [DbStore.decryptTodo, hbad]
  refine ⟨h1, by rw [h1]; rfl, ?_⟩
  intro t ht howner d hd
  have hmem : DbStore.decryptTodo t ∈
      (db.filter (fun t => t.owner = rec.owner)).map DbStore.decryptTodo :=
    List.mem_map_of_mem _ (List.mem_filter.mpr ⟨ht, by simpa using howner⟩)
  refine ⟨by simpa [DbStore.getTodosByOwner] using hmem, fun hdel => ?_⟩
  unfold DbStore.getTodosByOwner
  simp only [if_false]
  refine List.mem_filter.mpr ⟨hmem, ?_⟩
  simp [DbStore.decryptTodo, hd, hdel]

/-- Witness for C8: a two-row store holding one corrupt and one healthy
record of the same owner. -/
theorem decrypt_failure_on_read_recoverable_witness :
    DbStore.getTodoById [Inputs.corruptRow, Inputs.sampleRow] "b2" =
      some { id := "b2", owner := "npub1o", data := DbStore.placeholderData } ∧
    (DbStore.getTodoById [Inputs.corruptRow, Inputs.sampleRow] "b2").map
        (fun t => t.data.title) = some "[Encrypted - unable to decrypt]" ∧
    ∀ t ∈ [Inputs.corruptRow, Inputs.sampleRow], t.owner = "npub1o" →
      ∀ d, t.payload = some d →
        DbStore.decryptTodo t ∈
          DbStore.getTodosByOwner [Inputs.corruptRow, Inputs.sampleRow] "npub1o" true ∧
        (d.deleted = 0 →
          DbStore.decryptTodo t ∈
            DbStore.getTodosByOwner [Inputs.corruptRow, Inputs.sampleRow] "npub1o" false) :=
  decrypt_failure_on_read_recoverable [Inputs.corruptRow, Inputs.sampleRow]
    "b2" Inputs.corruptRow (by rfl) (by rfl)

/-! ### C10 — done flag forced consistently with state (corrected) -/

/-- C10 as stated is false: `updateTodo` forces the `done` flag only when
`updates.state` is truthy, so a patch setting `state` to the empty string
together with `done = 1` is stored verbatim: the resulting payload has
`state = "" ≠ "done"` but `done = 1`, where the claim requires `done = 0`
for any non-`'done'` state. -/
theorem done_state_coupling_cex :
    ∃ db', DbStore.updateTodo [Inputs.sampleRow] "a1" Inputs.emptyStatePatch 5
        = .ok db' ∧
      ∃ new, DbStore.dbGet db' "a1" = some new ∧
        ∃ d, new.payload = some d ∧ d.state ≠ "done" ∧ d.done = 1 :=
  ⟨_, rfl, _, by rfl, _, rfl, by decide, rfl⟩

/-- C10 amended: the coupling holds whenever the patch sets `state` to a
non-empty string (JS truthiness guards the forcing), and
`transitionTodoState` always establishes it: afterwards the stored payload
satisfies `done = 1` exactly when `state = 'done'`. -/
theorem done_state_coupling_amended
    (db : DbStore.DB) (id : String) (now : Nat) (db' : DbStore.DB) :
    (∀ patch : DbStore.TodoPatch, ∀ s, patch.state = some s → s ≠ "" →
      DbStore.updateTodo db id patch now = .ok db' →
      ∃ new, DbStore.dbGet db' id = some new ∧
        ∃ d, new.payload = some d ∧ (d.done = 1 ↔ d.state = "done")) ∧
    (∀ newState, DbStore.transitionTodoState db id newState now = .ok db' →
      ∃ new, DbStore.dbGet db' id = some new ∧
        ∃ d, new.payload = some d ∧ (d.done = 1 ↔ d.state = "done")) := by
  have main : ∀ patch : DbStore.TodoPatch, ∀ s, patch.state = some s →
      (DbStore.applyDoneForcing patch).done
          = some (if s = "done" then 1 else 0) →
      DbStore.updateTodo db id patch now = .ok db' →
      ∃ new, DbStore.dbGet db' id = some new ∧
        ∃ d, new.payload = some d ∧ (d.done = 1 ↔ d.state = "done") := by
    intro patch s hs hforced h
    unfold DbStore.updateTodo at h
    cases hget : DbStore.dbGet db id with
    | none => rw [hget] at h; exact absurd h (by simp)
    | some old =>
        rw [hget] at h
        simp only [Except.ok.injEq] at h
        have hid : old.id = id := by
          have := List.find?_some hget
          simpa using this
        subst h
        rw [show (DbStore.decryptTodo old).id = id from hid]
        refine ⟨_, DbStore.dbGet_dbPut_store db _, _, rfl, ?_⟩
        have hstate : (DbStore.applyDoneForcing patch).state = some s := by
          unfold DbStore.applyDoneForcing
          rw [hs]
          by_cases h1 : s = "done"
          · simp [h1]
          · by_cases h2 : s = "" <;> simp [h1, h2, hs]
        simp only [DbStore.mergeTodo, hforced, hstate, Option.getD_some]
        by_cases hd : s = "done" <;> simp [hd]
  refine ⟨?_, ?_⟩
  · intro patch s hs hne h
    refine main patch s hs ?_ h
    unfold DbStore.applyDoneForcing
    rw [hs]
    by_cases hd : s = "done" <;> simp [hd, hne]
  · intro newState h
    refine main _ newState rfl ?_ h
    unfold DbStore.applyDoneForcing
    by_cases hd : newState = "done" <;> simp [hd]

/-- Witness for the amended C10: a state transition to `'doing'`. -/
theorem done_state_coupling_amended_witness :
    ∃ new, DbStore.dbGet
        (DbStore.dbPut [Inputs.sampleRow]
          { id := "a1", owner := "npub1o"
          , payload := some (DbStore.mergeTodo Inputs.sampleData
              (DbStore.applyDoneForcing
                { state := some "doing", done := some 0 }) 7)
          , server_updated_at := some 3 }) "a1" = some new ∧
      ∃ d, new.payload = some d ∧ (d.done = 1 ↔ d.state = "done") :=
  (done_state_coupling_amended [Inputs.sampleRow] "a1" 7 _).2 "doing" (by rfl)
